import Mathlib

/-!
# Verification of the SymptomSync AI action pipeline

A shallow embedding, in Lean 4, of the AI action extraction, validation,
entity-resolution and confirmation-apply pipeline of the SymptomSync health
management application (`src/pages/chat.tsx` and `src/lib/aiChat.ts`),
together with theorems settling the specification claims.

Modelling conventions:
* JavaScript values flowing through the loosely-typed `data` bag of an
  action payload are modelled by the inductive type `JVal` (JSON values,
  with integers for numbers: the payloads handled by the pipeline carry
  integer severities and string fields, and floating point is out of scope).
* JavaScript exceptions are modelled with `Except JsErr`; a thrown
  `Error` carries its message, any other thrown value is `JsErr.nonError`
  (the apply handler surfaces `err.message` only for `Error` instances).
* The browser date library (`new Date`, `toDateString`, `toISOString`,
  `setDate`) is an external platform collaborator; it is modelled by a
  `DateEnv` record of its operations, plus a concrete executable
  instance (UTC, fixed clock) used to evaluate the concrete examples.
* The persistence collaborators (Supabase wrappers in `src/lib/*.ts`) may
  throw and are modelled as oracles in a `Collab` record; a write call
  that throws performs no write (their internals are out of scope).
-/

namespace SymptomSync

/-! ## JavaScript/JSON values -/

/-- JSON values as produced by `JSON.parse` (numbers restricted to
integers, see the file header). -/
inductive JVal where
  | jNull : JVal
  | jBool : Bool → JVal
  | jNum : Int → JVal
  | jStr : String → JVal
  | jArr : List JVal → JVal
  | jObj : List (String × JVal) → JVal

instance : Inhabited JVal := ⟨JVal.jNull⟩

/-- Last-occurrence field lookup: `JSON.parse` keeps the last duplicate
key, and property access reads that one. -/
def lookupLast (fs : List (String × JVal)) (k : String) : Option JVal :=
  match fs with
  | [] => none
  | (k₀, v₀) :: rest =>
    match lookupLast rest k with
    | some v => some v
    | none => if k₀ = k then some v₀ else none

/-- JavaScript property access `v[k]` for the keys used by the pipeline:
`undefined` (`none`) on non-objects, last-occurrence lookup on objects.
(Access on `null`/`undefined` throws; that case is handled at the use
sites via `dget` below.) -/
def jsGet (v : JVal) (k : String) : Option JVal :=
  match v with
  | .jObj fs => lookupLast fs k
  | _ => none

/-- JavaScript truthiness of a `JVal`. -/
def jsTruthy (v : JVal) : Bool :=
  match v with
  | .jNull => false
  | .jBool b => b
  | .jNum n => n != 0
  | .jStr s => s ≠ ""
  | .jArr _ => true
  | .jObj _ => true

/-! ## `getRotatedModels` (`src/lib/aiChat.ts`, lines 28–36) -/

/-- `getRotatedModels` from `src/lib/aiChat.ts`: JavaScript `%` is the
truncating remainder, modelled by `Int.tmod`; `slice(n)`/`slice(0, n)`
are `drop`/`take` at the non-negative `normalizedIndex`. -/
def getRotatedModels (models : List String) (startIndex : Int) : List String :=
  if models.length = 0 then []
  else
    let len : Int := models.length
    let normalizedIndex : Int := (startIndex.tmod len + len).tmod len
    models.drop normalizedIndex.toNat ++ models.take normalizedIndex.toNat

/-- Truncating remainder negates with its first argument. -/
theorem neg_tmod (a b : Int) : (-a).tmod b = -(a.tmod b) := by
  have h1 := Int.tmod_add_tdiv a b
  have h2 := Int.tmod_add_tdiv (-a) b
  rw [Int.neg_tdiv a b, mul_neg] at h2
  omega

/-- The JavaScript idiom `((i % len) + len) % len` (truncating `%`)
computes the Euclidean remainder. -/
theorem tmod_norm_eq_emod (a len : Int) (h : 0 < len) :
    (a.tmod len + len).tmod len = a % len := by
  have hub := Int.tmod_lt_of_pos a h
  have hlb : -len < a.tmod len := by
    rcases le_or_lt 0 a with ha | ha
    · have := Int.tmod_nonneg (a := a) len ha; omega
    · have h2 := neg_tmod a len
      have h3 := Int.tmod_lt_of_pos (-a) h
      omega
  have hnn : 0 ≤ a.tmod len + len := by omega
  rw [Int.tmod_eq_emod hnn (le_of_lt h)]
  have h4 := Int.tmod_add_tdiv a len
  have heq : a.tmod len + len = a + len * (1 - a.tdiv len) := by
    have h5 : len * (1 - a.tdiv len) = len - len * a.tdiv len := by ring
    omega
  rw [heq, Int.add_mul_emod_self_left]

/-- C9: `getRotatedModels` returns the rotation of the input list that
begins at index `startIndex` taken (Euclidean) modulo the list length —
in particular it has the same length and the same elements (it is a
permutation), and the empty list maps to the empty list. -/
theorem getRotatedModels_is_rotation (models : List String) (startIndex : Int) :
    getRotatedModels models startIndex
        = models.rotate ((startIndex % (models.length : Int)).toNat)
      ∧ (getRotatedModels models startIndex).length = models.length
      ∧ (getRotatedModels models startIndex).Perm models
      ∧ getRotatedModels [] startIndex = [] := by
  have hmain : getRotatedModels models startIndex
      = models.rotate ((startIndex % (models.length : Int)).toNat) := by
    by_cases hlen : models.length = 0
    · simp [getRotatedModels, hlen, List.eq_nil_of_length_eq_zero hlen]
    · have hpos : 0 < (models.length : Int) := by
        have := Nat.pos_of_ne_zero hlen
        exact_mod_cast this
      have hnorm := tmod_norm_eq_emod startIndex (models.length : Int) hpos
      have hlt : (startIndex % (models.length : Int)).toNat < models.length := by
        have h1 := Int.emod_lt_of_pos startIndex hpos
        have h2 := Int.emod_nonneg startIndex (by omega : (models.length : Int) ≠ 0)
        omega
      rw [getRotatedModels, if_neg hlen]
      simp only [hnorm]
      rw [List.rotate_eq_drop_append_take (le_of_lt hlt)]
  refine ⟨hmain, ?_, ?_, by simp [getRotatedModels]⟩
  · rw [hmain]; exact List.length_rotate models _
  · rw [hmain]; exact List.rotate_perm models _

/-! ## DateTimeResolver (`parseDateTime`, `src/pages/chat.tsx`, lines 562–613)

The browser date library is an external platform collaborator; `DateEnv`
records the operations the resolver uses: the current instant (`new
Date()`), string parsing (`new Date(string)`, `none` = Invalid Date),
`toDateString`, `toISOString`, and local-calendar day shifting
(`d.setDate(d.getDate() + n)`). Instants are epoch milliseconds. -/

structure DateEnv where
  now : Int
  parse : String → Option Int
  toDateString : Int → String
  toISOString : Int → String
  addDays : Int → Int → Int

/-! ### String primitives

The JavaScript string operations the pipeline uses (`trim`, `toLowerCase`,
`split`, `includes`, `startsWith`, `endsWith`), implemented by structural
recursion over the character list so that every concrete example reduces
inside the kernel. -/

/-- Whitespace for `String.prototype.trim` (the ASCII cases plus NBSP). -/
def isJsWs (c : Char) : Bool :=
  c = ' ' || c = '\t' || c = '\n' || c = '\r'
    || c.toNat = 11 || c.toNat = 12 || c.toNat = 160

/-- `String.prototype.trim`. -/
def jsTrim (s : String) : String :=
  String.mk (((s.data.dropWhile isJsWs).reverse.dropWhile isJsWs).reverse)

/-- ASCII lower-casing of one character (`String.prototype.toLowerCase`
on the inputs handled here). -/
def jsCharLower (c : Char) : Char :=
  if 'A' ≤ c && c ≤ 'Z' then Char.ofNat (c.toNat + 32) else c

/-- `String.prototype.toLowerCase`. -/
def jsToLower (s : String) : String := String.mk (s.data.map jsCharLower)

/-- `String.prototype.split` with a one-character separator. -/
def splitCharList (sep : Char) (cs : List Char) : List (List Char) :=
  match cs with
  | [] => [[]]
  | c :: rest =>
    match splitCharList sep rest with
    | [] => [[]]
    | grp :: grps => if c = sep then [] :: grp :: grps else (c :: grp) :: grps

def jsSplit (sep : Char) (s : String) : List String :=
  (splitCharList sep s.data).map String.mk

/-- Substring containment (`String.prototype.includes`). -/
def containsSub (cs sub : List Char) : Bool :=
  sub.isPrefixOf cs ||
    match cs with
    | [] => false
    | _ :: rest => containsSub rest sub

def jsIncludes (s sub : String) : Bool := containsSub s.data sub.data

/-- Boolean string prefix test over the character list (extensionally
`String.startsWith`, but stated in a form the proofs can reason about). -/
def strStartsWith (s p : String) : Bool := p.data.isPrefixOf s.data

/-- A character matched by `[, ]` in the keyword-stripping regexes. -/
def isCommaSpace (c : Char) : Bool := c = ',' || c = ' '

/-- One `replace(/^kw[, ]*/i, "")` step: if the lower-cased string starts
with the (lower-case) keyword, drop it and any following commas/spaces. -/
def stripKeyword (kw : String) (s : String) : String :=
  if strStartsWith (jsToLower s) kw then
    String.mk ((s.data.drop kw.length).dropWhile isCommaSpace)
  else s

/-- The keyword-stripping chain applied to the trimmed input (the five
`replace` calls of `parseDateTime`, in source order, then `trim`). -/
def relativeRemainder (trimmed : String) : String :=
  jsTrim (stripKeyword "yesterday"
    (stripKeyword "tmr"
      (stripKeyword "tomorrow"
        (stripKeyword "tonight"
          (stripKeyword "today" trimmed)))))

/-- `tryCombine` from `parseDateTime`: parse `date.toDateString() + " " +
timePart` (trimmed), `null` on Invalid Date. -/
def tryCombine (e : DateEnv) (d : Int) (timePart : String) : Option String :=
  (e.parse (jsTrim (e.toDateString d ++ " " ++ timePart))).map e.toISOString

/-- `parseDateTime` from `src/pages/chat.tsx`: `none` models both absent
input and `null`; the empty string is falsy and also yields `null`. -/
def parseDateTime (e : DateEnv) (value : Option String) : Option String :=
  match value with
  | none => none
  | some v =>
    if v = "" then none
    else
      let trimmed := jsTrim v
      let lower := jsToLower trimmed
      let keywordDate : Option Int :=
        if strStartsWith lower "tomorrow" || strStartsWith lower "tmr" then
          some (e.addDays e.now 1)
        else if strStartsWith lower "yesterday" then
          some (e.addDays e.now (-1))
        else if strStartsWith lower "today" || strStartsWith lower "tonight" then
          some e.now
        else none
      let direct : Option String :=
        match e.parse trimmed with
        | some t => some (e.toISOString t)
        | none => tryCombine e e.now trimmed
      match keywordDate with
      | some kd =>
        let timePart := relativeRemainder trimmed
        if timePart = "" then none
        else
          match tryCombine e kd timePart with
          | some combined => some combined
          | none => direct
      | none => direct

/-! ### A concrete date library instance (UTC, fixed clock)

An executable model of the browser date library for a UTC-local
environment (fixed offset 0, no DST), covering the formats the pipeline
actually produces: `toDateString` output recombined with a time-of-day
fragment (12-hour clock with meridiem, or `H:MM`), and ISO 8601 `Z`
strings. Calendar arithmetic follows the standard civil-from-days /
days-from-civil algorithms. -/

def msPerDay : Int := 86400000

/-- Days since the epoch of a civil date (proleptic Gregorian). -/
def daysFromCivil (y m d : Int) : Int :=
  let y' := if m ≤ 2 then y - 1 else y
  let era := (if 0 ≤ y' then y' else y' - 399) / 400
  let yoe := y' - era * 400
  let mp := if 2 < m then m - 3 else m + 9
  let doy := (153 * mp + 2) / 5 + d - 1
  let doe := yoe * 365 + yoe / 4 - yoe / 100 + doy
  era * 146097 + doe - 719468

/-- Civil date of a count of days since the epoch. -/
def civilFromDays (z : Int) : Int × Int × Int :=
  let z' := z + 719468
  let era := (if 0 ≤ z' then z' else z' - 146096) / 146097
  let doe := z' - era * 146097
  let yoe := (doe - doe / 1460 + doe / 36524 - doe / 146096) / 365
  let y := yoe + era * 400
  let doy := doe - (365 * yoe + yoe / 4 - yoe / 100)
  let mp := (5 * doy + 2) / 153
  let d := doy - (153 * mp + 2) / 5 + 1
  let m := if mp < 10 then mp + 3 else mp - 9
  (if m ≤ 2 then y + 1 else y, m, d)

def weekdayNames : List String :=
  ["sun", "mon", "tue", "wed", "thu", "fri", "sat"]

def weekdayName (z : Int) : String :=
  match ((z + 4).emod 7).toNat with
  | 0 => "Sun" | 1 => "Mon" | 2 => "Tue" | 3 => "Wed"
  | 4 => "Thu" | 5 => "Fri" | _ => "Sat"

def monthNames : List String :=
  ["jan", "feb", "mar", "apr", "may", "jun",
   "jul", "aug", "sep", "oct", "nov", "dec"]

def monthName (m : Int) : String :=
  match m with
  | 1 => "Jan" | 2 => "Feb" | 3 => "Mar" | 4 => "Apr"
  | 5 => "May" | 6 => "Jun" | 7 => "Jul" | 8 => "Aug"
  | 9 => "Sep" | 10 => "Oct" | 11 => "Nov" | _ => "Dec"

/-- 1-based month number of a (lower-cased) month name. -/
def monthIndex (s : String) : Option Int :=
  match (monthNames.indexOf s : Nat) with
  | 12 => none
  | i => some ((i : Int) + 1)

/-- Decimal rendering of a natural, left-padded with zeros. -/
def padNat (width : Nat) (n : Nat) : String :=
  let s := toString n
  String.mk (List.replicate (width - s.length) '0') ++ s

/-- `Date.prototype.toDateString` for a UTC-local environment. -/
def jsToDateStringUTC (t : Int) : String :=
  let z := t / msPerDay
  let c := civilFromDays z
  weekdayName z ++ " " ++ monthName c.2.1 ++ " " ++ padNat 2 c.2.2.toNat
    ++ " " ++ toString c.1.toNat

/-- `Date.prototype.toISOString` for a UTC-local environment. -/
def jsToISOStringUTC (t : Int) : String :=
  let z := t / msPerDay
  let rem := t - z * msPerDay
  let c := civilFromDays z
  let ms := rem % 1000
  let secs := rem / 1000
  padNat 4 c.1.toNat ++ "-" ++ padNat 2 c.2.1.toNat ++ "-" ++ padNat 2 c.2.2.toNat
    ++ "T" ++ padNat 2 (secs / 3600).toNat ++ ":" ++ padNat 2 ((secs / 60) % 60).toNat
    ++ ":" ++ padNat 2 (secs % 60).toNat ++ "." ++ padNat 3 ms.toNat ++ "Z"

/-- Value of a non-empty all-digit character run. -/
def digitsToNat (cs : List Char) : Option Nat :=
  if cs ≠ [] && cs.all Char.isDigit then
    some (cs.foldl (fun acc c => 10 * acc + (c.toNat - 48)) 0)
  else none

/-- `H`, `H:MM` or `H:MM:SS` (no meridiem adjustment yet). -/
def parseClock (tok : String) : Option (Nat × Nat × Nat) :=
  match (jsSplit ':' tok).map (fun p => digitsToNat p.data) with
  | [some h] => some (h, 0, 0)
  | [some h, some m] => if m ≤ 59 then some (h, m, 0) else none
  | [some h, some m, some s] => if m ≤ 59 && s ≤ 59 then some (h, m, s) else none
  | _ => none

/-- Split a token into its clock part and an optional meridiem suffix
(`some true` = pm, `some false` = am). -/
def splitMeridiem (tok : String) : String × Option Bool :=
  let l := jsToLower tok
  if strEndsWith l "am" then (String.mk (tok.data.dropLast.dropLast), some false)
  else if strEndsWith l "pm" then (String.mk (tok.data.dropLast.dropLast), some true)
  else (tok, none)
where
  strEndsWith (s p : String) : Bool := p.data.reverse.isPrefixOf s.data.reverse

/-- 12-hour to 24-hour conversion; without a meridiem the hour is 24-hour. -/
def applyMeridiem (h : Nat) (mer : Option Bool) : Option Nat :=
  match mer with
  | none => if h ≤ 23 then some h else none
  | some pm =>
    if 1 ≤ h && h ≤ 12 then
      some (if pm then (if h = 12 then 12 else h + 12) else (if h = 12 then 0 else h))
    else none

/-- Time-of-day tokens after the date part: nothing (midnight), one token
(`3pm`, `17:30`, `5:00PM`), or a clock token followed by a meridiem token. -/
def parseTimeToks (toks : List String) : Option (Nat × Nat × Nat) :=
  match toks with
  | [] => some (0, 0, 0)
  | [tok] =>
    let sm := splitMeridiem tok
    match parseClock sm.1 with
    | some (h, m, s) => (applyMeridiem h sm.2).map (fun h24 => (h24, m, s))
    | none => none
  | [tok, mer] =>
    let ml := jsToLower mer
    if ml = "am" || ml = "pm" then
      match parseClock tok with
      | some (h, m, s) => (applyMeridiem h (some (ml = "pm"))).map (fun h24 => (h24, m, s))
      | none => none
    else none
  | _ => none

def digitVal (c : Char) : Nat := c.toNat - 48

/-- ISO 8601 `YYYY-MM-DD`, optionally followed by `THH:MM:SS` and `.mmm`,
terminated by `Z` when a time is present (UTC instants). -/
def parseISOChars (cs : List Char) : Option Int :=
  match cs with
  | y1 :: y2 :: y3 :: y4 :: '-' :: m1 :: m2 :: '-' :: d1 :: d2 :: rest =>
    if ([y1, y2, y3, y4, m1, m2, d1, d2].all Char.isDigit) then
      let y : Int := (1000 * digitVal y1 + 100 * digitVal y2 + 10 * digitVal y3 + digitVal y4 : Nat)
      let mo : Int := (10 * digitVal m1 + digitVal m2 : Nat)
      let d : Int := (10 * digitVal d1 + digitVal d2 : Nat)
      if 1 ≤ mo && mo ≤ 12 && 1 ≤ d && d ≤ 31 then
        let base := daysFromCivil y mo d * msPerDay
        match rest with
        | [] => some base
        | 'T' :: h1 :: h2 :: ':' :: i1 :: i2 :: ':' :: s1 :: s2 :: rest2 =>
          if ([h1, h2, i1, i2, s1, s2].all Char.isDigit) then
            let hh := 10 * digitVal h1 + digitVal h2
            let mi := 10 * digitVal i1 + digitVal i2
            let ss := 10 * digitVal s1 + digitVal s2
            if hh ≤ 23 && mi ≤ 59 && ss ≤ 59 then
              let tpart : Int := ((hh * 3600 + mi * 60 + ss) * 1000 : Nat)
              match rest2 with
              | ['Z'] => some (base + tpart)
              | '.' :: a :: b :: c :: ['Z'] =>
                if ([a, b, c].all Char.isDigit) then
                  some (base + tpart + (100 * digitVal a + 10 * digitVal b + digitVal c : Nat))
                else none
              | _ => none
            else none
          else none
        | _ => none
      else none
    else none
  | _ => none

/-- `new Date(string)` for a UTC-local environment, covering ISO strings
and the `Dow Mon DD YYYY [time]` shape that `toDateString` combination
produces. Anything else is an Invalid Date (`none`). -/
def jsParseUTC (s : String) : Option Int :=
  match parseISOChars s.data with
  | some t => some t
  | none =>
    let toks := (jsSplit ' ' s).filter (fun p => p ≠ "")
    let toks :=
      match toks with
      | d :: rest => if weekdayNames.contains (jsToLower d) then rest else toks
      | [] => []
    match toks with
    | mon :: dd :: yyyy :: timeToks =>
      match monthIndex (jsToLower mon), digitsToNat dd.data, digitsToNat yyyy.data,
          parseTimeToks timeToks with
      | some m, some d, some y, some hms =>
        if 1 ≤ d && d ≤ 31 && hms.1 ≤ 23 then
          some (daysFromCivil (y : Int) m (d : Int) * msPerDay
            + ((hms.1 * 3600 + hms.2.1 * 60 + hms.2.2) * 1000 : Nat))
        else none
      | _, _, _, _ => none
    | _ => none

/-- The browser date library in a UTC-local session whose clock reads
`nowMs`. `setDate(getDate() + n)` is a whole-day shift (no DST at UTC). -/
def jsDateEnv (nowMs : Int) : DateEnv :=
  { now := nowMs
    parse := jsParseUTC
    toDateString := jsToDateStringUTC
    toISOString := jsToISOStringUTC
    addDays := fun t n => t + n * msPerDay }

/-- The instant `2025-01-01T00:00:00Z` in epoch milliseconds. -/
def now2025 : Int := daysFromCivil 2025 1 1 * msPerDay

/-- A UTC-local session whose clock reads `2025-01-01T00:00:00Z`. -/
def jsEnv2025 : DateEnv := jsDateEnv now2025

/-! ### Relative-keyword behaviour of `parseDateTime` (claim C4) -/

theorem strStartsWith_antichain {s p q : String}
    (hp : strStartsWith s p = true) (hq : strStartsWith s q = true) :
    p.data <+: q.data ∨ q.data <+: p.data := by
  rw [strStartsWith, List.isPrefixOf_iff_prefix] at hp hq
  exact List.prefix_or_prefix_of_prefix hp hq

theorem strStartsWith_false_of_incomparable {s p q : String}
    (hp : strStartsWith s p = true)
    (h1 : ¬ p.data <+: q.data) (h2 : ¬ q.data <+: p.data) :
    strStartsWith s q = false := by
  cases hq : strStartsWith s q
  · rfl
  · rcases strStartsWith_antichain hp hq with hc | hc
    · exact absurd hc h1
    · exact absurd hc h2

/-- C4: `parseDateTime` on an input starting with a relative keyword
(`today`, `tonight`, `tomorrow`/`tmr`, `yesterday`) applies day offsets
`0`, `0`, `+1`, `-1` respectively, strips the keyword, and returns `null`
when the remainder is empty; with a non-empty remainder that combines
into a valid date-time it returns the combined instant. In particular
`"tomorrow"` alone yields `null`, and `"tomorrow, 5:00 PM"` with now
fixed at `2025-01-01T00:00:00Z` yields the instant of
`2025-01-02T17:00:00` local time (UTC-local session). -/
theorem parseDateTime_relative_keywords :
    (∀ (e : DateEnv) (v : String),
      ((strStartsWith (jsToLower (jsTrim v)) "today" || strStartsWith (jsToLower (jsTrim v)) "tonight")
        || (strStartsWith (jsToLower (jsTrim v)) "tomorrow" || strStartsWith (jsToLower (jsTrim v)) "tmr")
        || strStartsWith (jsToLower (jsTrim v)) "yesterday") = true →
      relativeRemainder (jsTrim v) = "" →
      parseDateTime e (some v) = none)
    ∧ (∀ (e : DateEnv) (v : String) (t : Int),
      (strStartsWith (jsToLower (jsTrim v)) "tomorrow" = true
        ∨ strStartsWith (jsToLower (jsTrim v)) "tmr" = true) →
      relativeRemainder (jsTrim v) ≠ "" →
      e.parse (jsTrim (e.toDateString (e.addDays e.now 1) ++ " " ++ relativeRemainder (jsTrim v)))
        = some t →
      parseDateTime e (some v) = some (e.toISOString t))
    ∧ (∀ (e : DateEnv) (v : String) (t : Int),
      strStartsWith (jsToLower (jsTrim v)) "yesterday" = true →
      relativeRemainder (jsTrim v) ≠ "" →
      e.parse (jsTrim (e.toDateString (e.addDays e.now (-1)) ++ " " ++ relativeRemainder (jsTrim v)))
        = some t →
      parseDateTime e (some v) = some (e.toISOString t))
    ∧ (∀ (e : DateEnv) (v : String) (t : Int),
      (strStartsWith (jsToLower (jsTrim v)) "today" = true
        ∨ strStartsWith (jsToLower (jsTrim v)) "tonight" = true) →
      relativeRemainder (jsTrim v) ≠ "" →
      e.parse (jsTrim (e.toDateString e.now ++ " " ++ relativeRemainder (jsTrim v))) = some t →
      parseDateTime e (some v) = some (e.toISOString t))
    ∧ parseDateTime jsEnv2025 (some "tomorrow") = none
    ∧ parseDateTime jsEnv2025 (some "tomorrow, 5:00 PM")
        = some "2025-01-02T17:00:00.000Z" := by
  have hne : ∀ v : String, strStartsWith (jsToLower (jsTrim v)) "today" = true
      ∨ strStartsWith (jsToLower (jsTrim v)) "tonight" = true
      ∨ strStartsWith (jsToLower (jsTrim v)) "tomorrow" = true
      ∨ strStartsWith (jsToLower (jsTrim v)) "tmr" = true
      ∨ strStartsWith (jsToLower (jsTrim v)) "yesterday" = true → v ≠ "" := by
    intro v h hveq
    subst hveq
    rcases h with h | h | h | h | h <;> exact absurd h (by decide)
  clear hne
  refine ⟨?_, ?_, ?_, ?_, by decide, by decide⟩
  · intro e v hkw hrem
    have hv : v ≠ "" := by
      rintro rfl
      revert hkw
      decide
    simp only [parseDateTime, if_neg hv]
    rcases Bool.or_eq_true_iff.mp hkw with h | hyest
    · rcases Bool.or_eq_true_iff.mp h with htd | htom
      · rcases Bool.or_eq_true_iff.mp htd with htoday | htonight
        · have h1 := strStartsWith_false_of_incomparable htoday
            (q := "tomorrow") (by decide) (by decide)
          have h2 := strStartsWith_false_of_incomparable htoday
            (q := "tmr") (by decide) (by decide)
          have h3 := strStartsWith_false_of_incomparable htoday
            (q := "yesterday") (by decide) (by decide)
          simp [h1, h2, h3, htoday, hrem]
        · have h1 := strStartsWith_false_of_incomparable htonight
            (q := "tomorrow") (by decide) (by decide)
          have h2 := strStartsWith_false_of_incomparable htonight
            (q := "tmr") (by decide) (by decide)
          have h3 := strStartsWith_false_of_incomparable htonight
            (q := "yesterday") (by decide) (by decide)
          simp [h1, h2, h3, htonight, hrem]
      · rcases Bool.or_eq_true_iff.mp htom with h' | h' <;> simp [h', hrem]
    · have h1 := strStartsWith_false_of_incomparable hyest
        (q := "tomorrow") (by decide) (by decide)
      have h2 := strStartsWith_false_of_incomparable hyest
        (q := "tmr") (by decide) (by decide)
      simp [h1, h2, hyest, hrem]
  · intro e v t hkw hrem hparse
    have hv : v ≠ "" := by
      rintro rfl
      rcases hkw with h | h <;> exact absurd h (by decide)
    simp only [parseDateTime, if_neg hv]
    have hor : (strStartsWith (jsToLower (jsTrim v)) "tomorrow"
        || strStartsWith (jsToLower (jsTrim v)) "tmr") = true := by
      rcases hkw with h | h <;> simp [h]
    simp [hor, hrem, tryCombine, hparse]
  · intro e v t hyest hrem hparse
    have hv : v ≠ "" := by
      rintro rfl
      exact absurd hyest (by decide)
    have h1 := strStartsWith_false_of_incomparable hyest
      (q := "tomorrow") (by decide) (by decide)
    have h2 := strStartsWith_false_of_incomparable hyest
      (q := "tmr") (by decide) (by decide)
    simp only [parseDateTime, if_neg hv]
    simp [h1, h2, hyest, hrem, tryCombine, hparse]
  · intro e v t hkw hrem hparse
    have hv : v ≠ "" := by
      rintro rfl
      rcases hkw with h | h <;> exact absurd h (by decide)
    have hkw' : strStartsWith (jsToLower (jsTrim v)) "today" = true
        ∨ strStartsWith (jsToLower (jsTrim v)) "tonight" = true := hkw
    rcases hkw' with htoday | htonight
    · have h1 := strStartsWith_false_of_incomparable htoday
        (q := "tomorrow") (by decide) (by decide)
      have h2 := strStartsWith_false_of_incomparable htoday
        (q := "tmr") (by decide) (by decide)
      have h3 := strStartsWith_false_of_incomparable htoday
        (q := "yesterday") (by decide) (by decide)
      simp only [parseDateTime, if_neg hv]
      simp [h1, h2, h3, htoday, hrem, tryCombine, hparse]
    · have h1 := strStartsWith_false_of_incomparable htonight
        (q := "tomorrow") (by decide) (by decide)
      have h2 := strStartsWith_false_of_incomparable htonight
        (q := "tmr") (by decide) (by decide)
      have h3 := strStartsWith_false_of_incomparable htonight
        (q := "yesterday") (by decide) (by decide)
      simp only [parseDateTime, if_neg hv]
      simp [h1, h2, h3, htonight, hrem, tryCombine, hparse]

/-- Witness: the tomorrow-offset conjunct of
`parseDateTime_relative_keywords` instantiated at `"tomorrow 9:30"` in
the 2025-01-01 UTC session. -/
theorem parseDateTime_relative_keywords_witness :
    parseDateTime jsEnv2025 (some "tomorrow 9:30")
      = some (jsEnv2025.toISOString 1735810200000) :=
  parseDateTime_relative_keywords.2.1 jsEnv2025 "tomorrow 9:30" 1735810200000
    (Or.inl (by decide)) (by decide) (by decide)

/-! ## FallbackActionDeriver (`deriveHealthLogFromInput`,
`src/pages/chat.tsx`, lines 525–560) -/

/-- An action payload as staged by the chat page: the `entity`/`intent`
discriminators and the loosely-typed `data` bag (`none` models a payload
whose `data` field is absent). -/
structure Pending where
  entity : String
  intent : String
  data : Option JVal

instance : Inhabited Pending := ⟨⟨"", "", none⟩⟩

/-- JavaScript regex word character (`\w`). -/
def isWordChar (c : Char) : Bool := c.isAlphanum || c = '_'

/-- A `\b` boundary holds before a word character iff the previous
character (if any) is not a word character. -/
def boundaryBefore (prev : Option Char) : Bool :=
  match prev with
  | none => true
  | some p => !(isWordChar p)

/-- `/\b\d{1,2}\b/.test`, scanning with the previous character. -/
def testTwoDigit (prev : Option Char) (cs : List Char) : Bool :=
  match cs with
  | [] => false
  | c1 :: rest =>
    (boundaryBefore prev && c1.isDigit &&
      (match rest with
       | [] => true
       | c2 :: rest2 =>
         !(isWordChar c2) ||
           (c2.isDigit &&
             (match rest2 with
              | [] => true
              | c3 :: _ => !(isWordChar c3))))) ||
    testTwoDigit (some c1) rest

/-- First match of `/\b(10|[1-9])\b/` (the `10` alternative is tried
first at each position, as in the regex engine). -/
def findSeverity (prev : Option Char) (cs : List Char) : Option String :=
  match cs with
  | [] => none
  | c1 :: rest =>
    if boundaryBefore prev then
      if c1 = '1' &&
          (match rest with
           | '0' :: rest2 =>
             (match rest2 with
              | [] => true
              | c3 :: _ => !(isWordChar c3))
           | _ => false) then
        some "10"
      else if ('1' ≤ c1 && c1 ≤ '9') &&
          (match rest with
           | [] => true
           | c2 :: _ => !(isWordChar c2)) then
        some (String.mk [c1])
      else findSeverity (some c1) rest
    else findSeverity (some c1) rest

/-- `\d{4}-\d{2}-\d{2}` occurs at the head of the character list. -/
def isoDateAt (cs : List Char) : Bool :=
  match cs with
  | a :: b :: c :: d :: '-' :: e :: f :: '-' :: g :: h :: _ =>
    [a, b, c, d, e, f, g, h].all Char.isDigit
  | _ => false

/-- `\d{4}-\d{2}-\d{2}` occurs somewhere in the character list. -/
def hasIsoDateShape (cs : List Char) : Bool :=
  match cs with
  | [] => false
  | _ :: rest => isoDateAt cs || hasIsoDateShape rest

/-- Truthiness of `p.match(/today|tomorrow|tmr|yesterday|\d{4}-\d{2}-\d{2}|am|pm|:/i)`. -/
def hasDateVocab (p : String) : Bool :=
  let l := jsToLower p
  jsIncludes l "today" || jsIncludes l "tomorrow" || jsIncludes l "tmr"
    || jsIncludes l "yesterday" || hasIsoDateShape l.data
    || jsIncludes l "am" || jsIncludes l "pm" || jsIncludes l ":"

/-- `Array.prototype.join(", ")`. -/
def joinCommaSpace : List String → String
  | [] => ""
  | [s] => s
  | s :: rest => s ++ ", " ++ joinCommaSpace rest

/-- `deriveHealthLogFromInput` from `src/pages/chat.tsx`. Object-literal
keys whose value is `undefined` are omitted from the modelled `data` bag
(observationally equal for every use the pipeline makes of it). -/
def deriveHealthLogFromInput (input : String) : Option Pending :=
  let lower := jsToLower input
  let mentionsLog := jsIncludes lower "health log" || jsIncludes lower "log"
    || jsIncludes lower "record"
  if !mentionsLog && !(testTwoDigit none lower.data) then none
  else
    let parts := ((jsSplit ',' input).map jsTrim).filter (fun p => p ≠ "")
    let symptomCandidate :=
      match parts with
      | p :: _ => p
      | [] =>
        match jsSplit ' ' input with
        | w :: _ => w
        | [] => ""
    let severityMatch := findSeverity none input.data
    let severity : Option Int :=
      severityMatch.map (fun m => ((digitsToNat m.data).getD 0 : Int))
    let datePart : Option String := parts.find? hasDateVocab
    let notesParts := (parts.drop 1).filter (fun p =>
      (match severityMatch with
       | some m => decide (p ≠ m)
       | none => true) &&
      (match datePart with
       | some d => decide (p ≠ d)
       | none => true))
    if symptomCandidate = "" then none
    else
      some ⟨"health_log", "create", some (.jObj (
        [("symptom_type", .jStr symptomCandidate)]
        ++ (match severity with
            | some n => [("severity", JVal.jNum n)]
            | none => [])
        ++ (match datePart with
            | some d => [("start_date", JVal.jStr d)]
            | none => [])
        ++ (if notesParts ≠ [] then
              [("notes", JVal.jStr (joinCommaSpace notesParts))]
            else [])))⟩

/-! ## JSON

The wire format of §6 is a fenced block whose body is JSON. The platform
`JSON.parse` is modelled by an executable recursive-descent parser over
the character list (numbers restricted to integers, strings with the
standard escapes); serialization into the wire format (performed by the
assistant, not by the repository code) is modelled by a serializer that
emits standard JSON, escaping the quote, the backslash, the backtick and
control characters as `\uXXXX`. -/

/-- JSON insignificant whitespace. -/
def isJsonWs (c : Char) : Bool :=
  c = ' ' || c = '\t' || c = '\n' || c = '\r'

def skipWs (cs : List Char) : List Char := cs.dropWhile isJsonWs

def hexDigitChar (n : Nat) : Char :=
  if n < 10 then Char.ofNat (48 + n) else Char.ofNat (87 + n)

/-- Characters the serializer escapes: the two JSON-mandatory ones, the
backtick (so that a serialized body can never terminate the fenced block
early) and control characters. -/
def needsEscape (c : Char) : Bool :=
  c = '"' || c = '\\' || c = '`' || c.toNat < 32

def escapeChar (c : Char) : List Char :=
  if needsEscape c then
    ['\\', 'u', hexDigitChar (c.toNat / 4096 % 16), hexDigitChar (c.toNat / 256 % 16),
     hexDigitChar (c.toNat / 16 % 16), hexDigitChar (c.toNat % 16)]
  else [c]

def escString : List Char → List Char
  | [] => []
  | c :: cs => escapeChar c ++ escString cs

/-- Serialized JSON string literal. -/
def serStr (s : String) : List Char := '"' :: escString s.data ++ ['"']

/-- The character of one decimal digit. -/
def digitChar : Nat → Char
  | 0 => '0' | 1 => '1' | 2 => '2' | 3 => '3' | 4 => '4'
  | 5 => '5' | 6 => '6' | 7 => '7' | 8 => '8' | _ => '9'

/-- Decimal digits of a natural (`fuel` bounds the recursion depth and
any `fuel > n` is enough). -/
def natDigitsAux : Nat → Nat → List Char
  | 0, _ => []
  | fuel + 1, n =>
    if n < 10 then [digitChar n]
    else natDigitsAux fuel (n / 10) ++ [digitChar (n % 10)]

def natDigits (n : Nat) : List Char := natDigitsAux (n + 1) n

def serInt (n : Int) : List Char :=
  if n < 0 then '-' :: natDigits n.natAbs else natDigits n.toNat

mutual

/-- Serialized JSON of a value (compact, no insignificant whitespace). -/
def serJ : JVal → List Char
  | .jNull => ['n', 'u', 'l', 'l']
  | .jBool b => if b then ['t', 'r', 'u', 'e'] else ['f', 'a', 'l', 's', 'e']
  | .jNum n => serInt n
  | .jStr s => serStr s
  | .jArr xs => '[' :: serElems xs ++ [']']
  | .jObj fs => '{' :: serMembers fs ++ ['}']

def serElems : List JVal → List Char
  | [] => []
  | [x] => serJ x
  | x :: xs => serJ x ++ ',' :: serElems xs

def serMembers : List (String × JVal) → List Char
  | [] => []
  | [(k, v)] => serStr k ++ ':' :: serJ v
  | (k, v) :: fs => serStr k ++ ':' :: serJ v ++ ',' :: serMembers fs

end

def hexVal (c : Char) : Option Nat :=
  if '0' ≤ c && c ≤ '9' then some (c.toNat - 48)
  else if 'a' ≤ c && c ≤ 'f' then some (c.toNat - 87)
  else if 'A' ≤ c && c ≤ 'F' then some (c.toNat - 55)
  else none

def escDecode (c : Char) : Option Char :=
  if c = '"' then some '"'
  else if c = '\\' then some '\\'
  else if c = '/' then some '/'
  else if c = 'b' then some (Char.ofNat 8)
  else if c = 'f' then some (Char.ofNat 12)
  else if c = 'n' then some '\n'
  else if c = 'r' then some '\r'
  else if c = 't' then some '\t'
  else none

/-- Body of a JSON string literal after the opening quote: the decoded
characters and the rest of the input after the closing quote. -/
def parseStringBody : List Char → Option (List Char × List Char)
  | [] => none
  | c :: rest =>
    if c = '"' then some ([], rest)
    else if c = '\\' then
      match rest with
      | [] => none
      | e :: rest1 =>
        if e = 'u' then
          match rest1 with
          | a :: b :: c' :: d :: rest2 =>
            match hexVal a, hexVal b, hexVal c', hexVal d with
            | some x1, some x2, some x3, some x4 =>
              let n := 4096 * x1 + 256 * x2 + 16 * x3 + x4
              if Nat.isValidChar n then
                (parseStringBody rest2).map (fun p => (Char.ofNat n :: p.1, p.2))
              else none
            | _, _, _, _ => none
          | _ => none
        else
          match escDecode e with
          | some ec => (parseStringBody rest1).map (fun p => (ec :: p.1, p.2))
          | none => none
    else if c.toNat < 32 then none
    else (parseStringBody rest).map (fun p => (c :: p.1, p.2))

/-- ASCII decimal digit test (extensionally `Char.isDigit`). -/
def isDigitChar (c : Char) : Bool := 48 ≤ c.toNat && c.toNat ≤ 57

def parseDigitsAux (acc : Nat) : List Char → Nat × List Char
  | [] => (acc, [])
  | c :: rest =>
    if isDigitChar c then parseDigitsAux (10 * acc + (c.toNat - 48)) rest
    else (acc, c :: rest)

def parseNumber (cs : List Char) : Option (Int × List Char) :=
  match cs with
  | [] => none
  | c :: rest =>
    if c = '-' then
      match rest with
      | [] => none
      | d :: _ =>
        if isDigitChar d then
          let p := parseDigitsAux 0 rest
          some (-(p.1 : Int), p.2)
        else none
    else if isDigitChar c then
      let p := parseDigitsAux 0 (c :: rest)
      some ((p.1 : Int), p.2)
    else none

def stripLit (lit cs : List Char) : Option (List Char) :=
  if lit.isPrefixOf cs then some (cs.drop lit.length) else none

mutual

/-- Recursive-descent JSON value parser; `fuel` bounds the recursion and
is decremented at every nested call (the top-level entry point supplies
a provably sufficient amount). -/
def parseVal : Nat → List Char → Option (JVal × List Char)
  | 0, _ => none
  | fuel + 1, cs =>
    match skipWs cs with
    | [] => none
    | c :: rest =>
      if c = '{' then
        match skipWs rest with
        | [] => none
        | c2 :: r2 =>
          if c2 = '}' then some (.jObj [], r2)
          else (parseMembers fuel (c2 :: r2)).map (fun p => (.jObj p.1, p.2))
      else if c = '[' then
        match skipWs rest with
        | [] => none
        | c2 :: r2 =>
          if c2 = ']' then some (.jArr [], r2)
          else (parseElems fuel (c2 :: r2)).map (fun p => (.jArr p.1, p.2))
      else if c = '"' then
        (parseStringBody rest).map (fun p => (.jStr (String.mk p.1), p.2))
      else
        match stripLit ['t', 'r', 'u', 'e'] (c :: rest) with
        | some r => some (.jBool true, r)
        | none =>
          match stripLit ['f', 'a', 'l', 's', 'e'] (c :: rest) with
          | some r => some (.jBool false, r)
          | none =>
            match stripLit ['n', 'u', 'l', 'l'] (c :: rest) with
            | some r => some (.jNull, r)
            | none => (parseNumber (c :: rest)).map (fun p => (.jNum p.1, p.2))

/-- One or more `"key": value` members followed by `}`. -/
def parseMembers : Nat → List Char → Option (List (String × JVal) × List Char)
  | 0, _ => none
  | fuel + 1, cs =>
    match cs with
    | [] => none
    | c :: rest =>
      if c = '"' then
        match parseStringBody rest with
        | some (kcs, r1) =>
          match skipWs r1 with
          | [] => none
          | c1 :: r2 =>
            if c1 = ':' then
              match parseVal fuel r2 with
              | some (v, r3) =>
                match skipWs r3 with
                | [] => none
                | c3 :: r4 =>
                  if c3 = ',' then
                    (parseMembers fuel (skipWs r4)).map
                      (fun p => ((String.mk kcs, v) :: p.1, p.2))
                  else if c3 = '}' then some ([(String.mk kcs, v)], r4)
                  else none
              | none => none
            else none
        | none => none
      else none

/-- One or more values followed by `]`. -/
def parseElems : Nat → List Char → Option (List JVal × List Char)
  | 0, _ => none
  | fuel + 1, cs =>
    match parseVal fuel cs with
    | some (v, r1) =>
      match skipWs r1 with
      | [] => none
      | c1 :: r2 =>
        if c1 = ',' then (parseElems fuel (skipWs r2)).map (fun p => (v :: p.1, p.2))
        else if c1 = ']' then some ([v], r2)
        else none
    | none => none

end

/-- `JSON.parse` (on the integer-numbered fragment, see the section
header): parse one value, allow trailing whitespace, reject anything
else. -/
def jsonParse (s : String) : Option JVal :=
  match parseVal (2 * s.data.length + 2) s.data with
  | some (v, rest) => if skipWs rest = [] then some v else none
  | none => none

/-! ### Parse-of-print: the parser reads back what the serializer wrote -/

mutual

/-- Fuel sufficient for `parseVal` on the serialization of a value. -/
def sizeJ : JVal → Nat
  | .jNull => 1
  | .jBool _ => 1
  | .jNum _ => 1
  | .jStr _ => 1
  | .jArr xs => 1 + sizeE xs
  | .jObj fs => 1 + sizeM fs

def sizeE : List JVal → Nat
  | [] => 1
  | x :: xs => 1 + sizeJ x + sizeE xs

def sizeM : List (String × JVal) → Nat
  | [] => 1
  | (_, v) :: fs => 1 + sizeJ v + sizeM fs

end

theorem digitChar_isDigit (n : Nat) : isDigitChar (digitChar n) = true := by
  unfold digitChar
  split <;> decide

theorem digitChar_val (n : Nat) (h : n < 10) : (digitChar n).toNat - 48 = n := by
  interval_cases n <;> decide

/-- The head of a tail of the input. -/
def headDigit : List Char → Bool
  | [] => false
  | c :: _ => isDigitChar c

theorem beq_false_of_test {c d : Char} (p : Char → Bool)
    (hc : p c = true) (hd : p d = false) : (d == c) = false := by
  cases h : d == c
  · rfl
  · have he : d = c := by simpa using h
    rw [he, hc] at hd
    cases hd

theorem ne_of_test {c d : Char} (p : Char → Bool)
    (hc : p c = true) (hd : p d = false) : c ≠ d := by
  intro he
  rw [he, hd] at hc
  cases hc

theorem not_ws_of_digit {c : Char} (h : isDigitChar c = true) :
    isJsonWs c = false := by
  cases hw : isJsonWs c
  · rfl
  · exfalso
    simp only [isJsonWs, Bool.or_eq_true, decide_eq_true_eq] at hw
    rcases hw with ((h1 | h1) | h1) | h1 <;> (subst h1; simp [isDigitChar] at h)

theorem skipWs_cons_not_ws {c : Char} (t : List Char) (h : isJsonWs c = false) :
    skipWs (c :: t) = c :: t := by
  simp [skipWs, List.dropWhile_cons, h]

theorem parseDigitsAux_spec (ds : List Char) (rest : List Char) (acc : Nat)
    (hds : ds.all isDigitChar = true) (hrest : headDigit rest = false) :
    parseDigitsAux acc (ds ++ rest)
      = (ds.foldl (fun a c => 10 * a + (c.toNat - 48)) acc, rest) := by
  induction ds generalizing acc with
  | nil =>
    simp only [List.nil_append, List.foldl_nil]
    cases rest with
    | nil => rfl
    | cons c t =>
      simp only [headDigit] at hrest
      simp [parseDigitsAux, hrest]
  | cons c t ih =>
    simp only [List.all_cons, Bool.and_eq_true] at hds
    simp only [List.cons_append, parseDigitsAux, hds.1, if_true, List.foldl_cons]
    exact ih _ hds.2

theorem natDigitsAux_all (fuel n : Nat) :
    (natDigitsAux fuel n).all isDigitChar = true := by
  induction fuel generalizing n with
  | zero => rfl
  | succ f ih =>
    by_cases h : n < 10
    · simp [natDigitsAux, h, digitChar_isDigit]
    · simp [natDigitsAux, h, digitChar_isDigit, ih]

theorem natDigitsAux_ne_nil (fuel n : Nat) (h : 0 < fuel) :
    natDigitsAux fuel n ≠ [] := by
  cases fuel with
  | zero => omega
  | succ f =>
    by_cases h10 : n < 10 <;> simp [natDigitsAux, h10]

theorem natDigitsAux_head_digit (fuel n : Nat) (rest : List Char) (h : 0 < fuel) :
    headDigit (natDigitsAux fuel n ++ rest) = true := by
  induction fuel generalizing n rest with
  | zero => omega
  | succ f ih =>
    by_cases h10 : n < 10
    · simp [natDigitsAux, h10, headDigit, digitChar_isDigit]
    · simp only [natDigitsAux, h10, if_false, List.append_assoc, List.cons_append,
        List.nil_append]
      cases hf : f with
      | zero => simp [natDigitsAux, headDigit, digitChar_isDigit]
      | succ f' =>
        have := ih (n / 10) (digitChar (n % 10) :: rest) (by omega)
        rw [hf] at this
        exact this

theorem natDigitsAux_foldl (fuel n acc : Nat) (h : n < fuel) :
    (natDigitsAux fuel n).foldl (fun a c => 10 * a + (c.toNat - 48)) acc
      = acc * 10 ^ (natDigitsAux fuel n).length + n := by
  induction fuel generalizing n acc with
  | zero => omega
  | succ f ih =>
    by_cases h10 : n < 10
    · simp [natDigitsAux, h10, digitChar_val n h10, Nat.mul_comm]
    · have hdiv : n / 10 < f := by
        have h1 : 0 < n := by omega
        have h2 : n / 10 < n := Nat.div_lt_self h1 (by omega)
        omega
      have hmod : n % 10 < 10 := Nat.mod_lt _ (by omega)
      simp only [natDigitsAux, h10, if_false, List.foldl_append, List.foldl_cons,
        List.foldl_nil, List.length_append, List.length_cons, List.length_nil]
      rw [ih _ _ hdiv, digitChar_val _ hmod]
      have hnm := Nat.div_add_mod n 10
      have hpow : 10 ^ ((natDigitsAux f (n / 10)).length + (0 + 1))
          = 10 ^ (natDigitsAux f (n / 10)).length * 10 := by
        rw [Nat.zero_add, Nat.pow_succ]
      rw [hpow]
      have hdist : 10 * (acc * 10 ^ (natDigitsAux f (n / 10)).length + n / 10)
          = 10 * (acc * 10 ^ (natDigitsAux f (n / 10)).length) + 10 * (n / 10) := by
        ring
      have hcomm : acc * (10 ^ (natDigitsAux f (n / 10)).length * 10)
          = 10 * (acc * 10 ^ (natDigitsAux f (n / 10)).length) := by
        ring
      omega

theorem natDigits_foldl (n : Nat) :
    (natDigits n).foldl (fun a c => 10 * a + (c.toNat - 48)) 0 = n := by
  have h := natDigitsAux_foldl (n + 1) n 0 (by omega)
  simpa [natDigits] using h

theorem parseNumber_serInt (n : Int) (rest : List Char)
    (hrest : headDigit rest = false) :
    parseNumber (serInt n ++ rest) = some (n, rest) := by
  by_cases hn : n < 0
  · have hser : serInt n = '-' :: natDigits n.natAbs := by simp [serInt, hn]
    have hspec := parseDigitsAux_spec (natDigits n.natAbs) rest 0
      (natDigitsAux_all _ _) hrest
    have hfold := natDigits_foldl n.natAbs
    cases hnd : natDigits n.natAbs with
    | nil => exact absurd hnd (natDigitsAux_ne_nil _ _ (by omega))
    | cons a b =>
      have hdig : isDigitChar a = true := by
        have h1 := natDigitsAux_head_digit (n.natAbs + 1) n.natAbs rest (by omega)
        have h2 : natDigitsAux (n.natAbs + 1) n.natAbs = a :: b := hnd
        rw [h2] at h1
        simpa [headDigit] using h1
      rw [hnd] at hspec hfold
      rw [hser, hnd]
      simp only [List.cons_append] at hspec ⊢
      simp [parseNumber, hdig, hspec, hfold, -Int.natCast_natAbs]
      omega
  · have hser : serInt n = natDigits n.toNat := by simp [serInt, hn]
    have hspec := parseDigitsAux_spec (natDigits n.toNat) rest 0
      (natDigitsAux_all _ _) hrest
    have hfold := natDigits_foldl n.toNat
    cases hnd : natDigits n.toNat with
    | nil => exact absurd hnd (natDigitsAux_ne_nil _ _ (by omega))
    | cons a b =>
      have hdig : isDigitChar a = true := by
        have h1 := natDigitsAux_head_digit (n.toNat + 1) n.toNat rest (by omega)
        have h2 : natDigitsAux (n.toNat + 1) n.toNat = a :: b := hnd
        rw [h2] at h1
        simpa [headDigit] using h1
      have hnotminus : a ≠ '-' := ne_of_test isDigitChar hdig (by decide)
      rw [hnd] at hspec hfold
      rw [hser, hnd]
      simp only [List.cons_append] at hspec ⊢
      simp [parseNumber, if_neg hnotminus, hdig, hspec, hfold]
      omega

theorem hexVal_hexDigitChar : ∀ x : Nat, x < 16 → hexVal (hexDigitChar x) = some x := by
  decide

theorem needsEscape_lt {c : Char} (h : needsEscape c = true) : c.toNat < 128 := by
  simp only [needsEscape, Bool.or_eq_true, decide_eq_true_eq] at h
  rcases h with ((h1 | h1) | h1) | h1
  · subst h1; decide
  · subst h1; decide
  · subst h1; decide
  · omega

theorem parseStringBody_escString (cs rest : List Char) :
    parseStringBody (escString cs ++ '"' :: rest) = some (cs, rest) := by
  induction cs with
  | nil =>
    show parseStringBody ([] ++ '"' :: rest) = some ([], rest)
    rw [List.nil_append, parseStringBody.eq_def]
    simp
  | cons c t ih =>
    by_cases hesc : needsEscape c = true
    · have hlt : c.toNat < 128 := needsEscape_lt hesc
      have h1 := hexVal_hexDigitChar (c.toNat / 4096 % 16) (by omega)
      have h2 := hexVal_hexDigitChar (c.toNat / 256 % 16) (by omega)
      have h3 := hexVal_hexDigitChar (c.toNat / 16 % 16) (by omega)
      have h4 := hexVal_hexDigitChar (c.toNat % 16) (by omega)
      have hrec : 4096 * (c.toNat / 4096 % 16) + 256 * (c.toNat / 256 % 16)
          + 16 * (c.toNat / 16 % 16) + c.toNat % 16 = c.toNat := by omega
      have hvalid : Nat.isValidChar c.toNat := Or.inl (by omega)
      simp only [escString, escapeChar, hesc, if_true, List.cons_append,
        List.append_assoc, List.nil_append]
      rw [parseStringBody.eq_def]
      simp [h1, h2, h3, h4, hrec, hvalid, ih, Char.ofNat_toNat]
    · have hne : needsEscape c = false := by
        cases h : needsEscape c
        · rfl
        · exact absurd h hesc
      simp only [needsEscape, Bool.or_eq_false_iff, decide_eq_false_iff_not] at hne
      obtain ⟨⟨⟨hq, hb⟩, hg⟩, hctl⟩ := hne
      simp only [escString, escapeChar, needsEscape]
      rw [if_neg (by simp [hq, hb, hg, hctl])]
      simp only [List.nil_append, List.singleton_append, List.cons_append]
      rw [parseStringBody.eq_def]
      simp only [if_neg hq, if_neg hb, if_neg hctl]
      simp [ih]

theorem serInt_head (n : Int) :
    ∃ c t, serInt n = c :: t ∧ (c = '-' ∨ isDigitChar c = true) := by
  by_cases hn : n < 0
  · exact ⟨'-', natDigits n.natAbs, by simp [serInt, hn], Or.inl rfl⟩
  · have hser : serInt n = natDigits n.toNat := by simp [serInt, hn]
    cases hnd : natDigits n.toNat with
    | nil => exact absurd hnd (natDigitsAux_ne_nil _ _ (by omega))
    | cons a b =>
      refine ⟨a, b, by rw [hser, hnd], Or.inr ?_⟩
      have h1 := natDigitsAux_head_digit (n.toNat + 1) n.toNat [] (by omega)
      have h2 : natDigitsAux (n.toNat + 1) n.toNat = a :: b := hnd
      rw [h2] at h1
      simpa [headDigit] using h1

/-- Head of a serialized value with anything appended: a non-whitespace
character that is none of the delimiters the parser dispatches on after
a value. -/
theorem serJ_head (v : JVal) (r : List Char) :
    ∃ c t, serJ v ++ r = c :: t ∧ isJsonWs c = false ∧ c ≠ ']' ∧ c ≠ '}' := by
  cases v with
  | jNull => exact ⟨'n', 'u' :: 'l' :: 'l' :: r, rfl, by decide, by decide, by decide⟩
  | jBool b =>
    cases b
    · exact ⟨'f', 'a' :: 'l' :: 's' :: 'e' :: r, rfl, by decide, by decide, by decide⟩
    · exact ⟨'t', 'r' :: 'u' :: 'e' :: r, rfl, by decide, by decide, by decide⟩
  | jNum n =>
    obtain ⟨c, t, hc, hcase⟩ := serInt_head n
    refine ⟨c, t ++ r, by simp [serJ, hc], ?_, ?_, ?_⟩
    · rcases hcase with h | h
      · subst h; decide
      · exact not_ws_of_digit h
    · rcases hcase with h | h
      · subst h; decide
      · exact ne_of_test isDigitChar h (by decide)
    · rcases hcase with h | h
      · subst h; decide
      · exact ne_of_test isDigitChar h (by decide)
  | jStr s =>
    exact ⟨'"', escString s.data ++ '"' :: r, by simp [serJ, serStr],
      by decide, by decide, by decide⟩
  | jArr xs =>
    exact ⟨'[', serElems xs ++ ']' :: r, by simp [serJ],
      by decide, by decide, by decide⟩
  | jObj fs =>
    exact ⟨'{', serMembers fs ++ '}' :: r, by simp [serJ],
      by decide, by decide, by decide⟩

theorem skipWs_serJ (v : JVal) (r : List Char) :
    skipWs (serJ v ++ r) = serJ v ++ r := by
  obtain ⟨c, t, hc, hws, _, _⟩ := serJ_head v r
  rw [hc]
  exact skipWs_cons_not_ws t hws

theorem serElems_singleton (x : JVal) : serElems [x] = serJ x := rfl

theorem serElems_cons2 (x y : JVal) (ys : List JVal) :
    serElems (x :: y :: ys) = serJ x ++ ',' :: serElems (y :: ys) := rfl

theorem serMembers_single (k : String) (v : JVal) :
    serMembers [(k, v)] = '"' :: (escString k.data ++ '"' :: ':' :: serJ v) := by
  show serStr k ++ ':' :: serJ v = _
  simp [serStr]

theorem serMembers_cons2 (k : String) (v : JVal) (kv2 : String × JVal)
    (fs : List (String × JVal)) :
    serMembers ((k, v) :: kv2 :: fs)
      = '"' :: (escString k.data ++ '"' :: ':' ::
          (serJ v ++ ',' :: serMembers (kv2 :: fs))) := by
  show serStr k ++ ':' :: serJ v ++ ',' :: serMembers (kv2 :: fs) = _
  simp [serStr]

/-- Head of a serialized non-empty element list with anything appended. -/
theorem serElems_head (xs : List JVal) (h : xs ≠ []) (r : List Char) :
    ∃ c t, serElems xs ++ r = c :: t ∧ isJsonWs c = false ∧ c ≠ ']' ∧ c ≠ '}' := by
  cases xs with
  | nil => exact absurd rfl h
  | cons x xs' =>
    cases xs' with
    | nil =>
      rw [serElems_singleton]
      exact serJ_head x r
    | cons y ys =>
      rw [serElems_cons2]
      obtain ⟨c, t, hc, hws, h1, h2⟩ := serJ_head x (',' :: (serElems (y :: ys) ++ r))
      exact ⟨c, t, by rw [← hc]; simp, hws, h1, h2⟩

theorem serMembers_head (fs : List (String × JVal)) (h : fs ≠ []) (r : List Char) :
    ∃ t, serMembers fs ++ r = '"' :: t := by
  cases fs with
  | nil => exact absurd rfl h
  | cons kv fs' =>
    obtain ⟨k, v⟩ := kv
    cases fs' with
    | nil =>
      exact ⟨escString k.data ++ '"' :: ':' :: (serJ v ++ r),
        by rw [serMembers_single]; simp⟩
    | cons kv2 fs'' =>
      exact ⟨escString k.data ++ '"' :: ':' ::
          (serJ v ++ ',' :: (serMembers (kv2 :: fs'') ++ r)),
        by rw [serMembers_cons2]; simp⟩

theorem sizeJ_pos (v : JVal) : 1 ≤ sizeJ v := by
  cases v <;> simp [sizeJ]

mutual

theorem rtVal (v : JVal) (fuel : Nat) (rest : List Char)
    (hsize : sizeJ v ≤ fuel) (hrest : headDigit rest = false) :
    parseVal fuel (serJ v ++ rest) = some (v, rest) := by
  cases fuel with
  | zero => exact absurd hsize (by have := sizeJ_pos v; omega)
  | succ f =>
    cases v with
    | jNull =>
      simp [serJ, parseVal, skipWs, List.dropWhile, isJsonWs, stripLit,
        List.isPrefixOf]
    | jBool b =>
      cases b <;>
        simp [serJ, parseVal, skipWs, List.dropWhile, isJsonWs, stripLit,
          List.isPrefixOf]
    | jNum n =>
      obtain ⟨c, t, hc, hcase⟩ := serInt_head n
      have hnum := parseNumber_serInt n rest hrest
      have hne1 : c ≠ '{' := by
        rcases hcase with h | h
        · subst h; decide
        · exact ne_of_test isDigitChar h (by decide)
      have hne2 : c ≠ '[' := by
        rcases hcase with h | h
        · subst h; decide
        · exact ne_of_test isDigitChar h (by decide)
      have hne3 : c ≠ '"' := by
        rcases hcase with h | h
        · subst h; decide
        · exact ne_of_test isDigitChar h (by decide)
      have hws : isJsonWs c = false := by
        rcases hcase with h | h
        · subst h; decide
        · exact not_ws_of_digit h
      have hbeq : ∀ d : Char, isDigitChar d = false → d ≠ '-' → (d == c) = false := by
        intro d hd hdm
        rcases hcase with h | h
        · subst h
          cases hbb : d == '-'
          · rfl
          · exact absurd (by simpa using hbb) hdm
        · exact beq_false_of_test isDigitChar h hd
      have hstrip1 : stripLit ['t', 'r', 'u', 'e'] (c :: (t ++ rest)) = none := by
        simp [stripLit, List.isPrefixOf, hbeq 't' (by decide) (by decide)]
      have hstrip2 : stripLit ['f', 'a', 'l', 's', 'e'] (c :: (t ++ rest)) = none := by
        simp [stripLit, List.isPrefixOf, hbeq 'f' (by decide) (by decide)]
      have hstrip3 : stripLit ['n', 'u', 'l', 'l'] (c :: (t ++ rest)) = none := by
        simp [stripLit, List.isPrefixOf, hbeq 'n' (by decide) (by decide)]
      have hser : serJ (.jNum n) ++ rest = c :: (t ++ rest) := by simp [serJ, hc]
      rw [hser]
      simp [parseVal, skipWs_cons_not_ws _ hws, hne1, hne2, hne3,
        hstrip1, hstrip2, hstrip3]
      rw [← List.cons_append, ← hc, hnum]
    | jStr s =>
      have hser : serJ (.jStr s) ++ rest
          = '"' :: (escString s.data ++ '"' :: rest) := by
        simp [serJ, serStr]
      rw [hser]
      simp [parseVal, skipWs_cons_not_ws _ (by decide : isJsonWs '"' = false),
        parseStringBody_escString]
    | jArr xs =>
      cases xs with
      | nil =>
        have h1 : serJ (.jArr []) ++ rest = '[' :: ']' :: rest := by
          simp [serJ, serElems]
        rw [h1]
        simp [parseVal, skipWs_cons_not_ws _ (by decide : isJsonWs '[' = false),
          skipWs_cons_not_ws _ (by decide : isJsonWs ']' = false)]
      | cons x xs' =>
        obtain ⟨c, t, hc, hws, hne1, _⟩ := serElems_head (x :: xs') (by simp)
          (']' :: rest)
        have h1 : serJ (.jArr (x :: xs')) ++ rest = '[' :: (c :: t) := by
          have h2 : serJ (.jArr (x :: xs')) ++ rest
              = '[' :: (serElems (x :: xs') ++ ']' :: rest) := by simp [serJ]
          rw [h2, hc]
        rw [h1]
        have hrt := rtElems (x :: xs') f rest (by simp)
          (by simp [sizeJ] at hsize; omega)
        rw [hc] at hrt
        simp [parseVal, skipWs_cons_not_ws _ (by decide : isJsonWs '[' = false),
          skipWs_cons_not_ws _ hws, hne1, hrt]
    | jObj fs =>
      cases fs with
      | nil =>
        have h1 : serJ (.jObj []) ++ rest = '{' :: '}' :: rest := by
          simp [serJ, serMembers]
        rw [h1]
        simp [parseVal, skipWs_cons_not_ws _ (by decide : isJsonWs '{' = false),
          skipWs_cons_not_ws _ (by decide : isJsonWs '}' = false)]
      | cons kv fs' =>
        obtain ⟨t, ht⟩ := serMembers_head (kv :: fs') (by simp) ('}' :: rest)
        have h1 : serJ (.jObj (kv :: fs')) ++ rest = '{' :: ('"' :: t) := by
          have h2 : serJ (.jObj (kv :: fs')) ++ rest
              = '{' :: (serMembers (kv :: fs') ++ '}' :: rest) := by simp [serJ]
          rw [h2, ht]
        rw [h1]
        have hrt := rtMembers (kv :: fs') f rest (by simp)
          (by simp [sizeJ] at hsize; omega)
        rw [ht] at hrt
        simp [parseVal, skipWs_cons_not_ws _ (by decide : isJsonWs '{' = false),
          skipWs_cons_not_ws _ (by decide : isJsonWs '"' = false), hrt]

theorem rtElems (xs : List JVal) (fuel : Nat) (rest : List Char)
    (hne : xs ≠ []) (hsize : sizeE xs ≤ fuel) :
    parseElems fuel (serElems xs ++ ']' :: rest) = some (xs, rest) := by
  cases xs with
  | nil => exact absurd rfl hne
  | cons x xs' =>
    cases fuel with
    | zero => exact absurd hsize (by simp [sizeE])
    | succ f =>
      cases xs' with
      | nil =>
        have hv := rtVal x f (']' :: rest) (by simp [sizeE] at hsize; omega) rfl
        rw [serElems_singleton]
        simp [parseElems, hv, skipWs_cons_not_ws _ (by decide : isJsonWs ']' = false)]
      | cons x2 xs'' =>
        have hsz1 : sizeJ x ≤ f := by simp [sizeE] at hsize; omega
        have hsz2 : sizeE (x2 :: xs'') ≤ f := by
          simp [sizeE] at hsize ⊢
          omega
        have hv := rtVal x f (',' :: (serElems (x2 :: xs'') ++ ']' :: rest)) hsz1 rfl
        obtain ⟨c, t, hc, hws, _, _⟩ := serElems_head (x2 :: xs'') (by simp)
          (']' :: rest)
        have hrt := rtElems (x2 :: xs'') f rest (by simp) hsz2
        rw [hc] at hrt hv
        have h1 : serElems (x :: x2 :: xs'') ++ ']' :: rest
            = serJ x ++ (',' :: (serElems (x2 :: xs'') ++ ']' :: rest)) := by
          rw [serElems_cons2]
          simp
        rw [h1, hc]
        simp [parseElems, hv, skipWs_cons_not_ws _ (by decide : isJsonWs ',' = false),
          skipWs_cons_not_ws _ hws, hrt]

theorem rtMembers (fs : List (String × JVal)) (fuel : Nat) (rest : List Char)
    (hne : fs ≠ []) (hsize : sizeM fs ≤ fuel) :
    parseMembers fuel (serMembers fs ++ '}' :: rest) = some (fs, rest) := by
  cases fs with
  | nil => exact absurd rfl hne
  | cons kv fs' =>
    obtain ⟨k, v⟩ := kv
    cases fuel with
    | zero => exact absurd hsize (by simp [sizeM])
    | succ f =>
      cases fs' with
      | nil =>
        have hv := rtVal v f ('}' :: rest) (by simp [sizeM] at hsize; omega) rfl
        have h1 : serMembers [(k, v)] ++ '}' :: rest
            = '"' :: (escString k.data ++ '"' :: (':' :: (serJ v ++ '}' :: rest))) := by
          rw [serMembers_single]
          simp
        rw [h1]
        simp [parseMembers, parseStringBody_escString, hv,
          skipWs_cons_not_ws _ (by decide : isJsonWs ':' = false),
          skipWs_cons_not_ws _ (by decide : isJsonWs '}' = false)]
      | cons kv2 fs'' =>
        have hsz1 : sizeJ v ≤ f := by simp [sizeM] at hsize; omega
        have hsz2 : sizeM (kv2 :: fs'') ≤ f := by
          simp [sizeM] at hsize ⊢
          omega
        have hv := rtVal v f (',' :: (serMembers (kv2 :: fs'') ++ '}' :: rest)) hsz1 rfl
        obtain ⟨t, ht⟩ := serMembers_head (kv2 :: fs'') (by simp) ('}' :: rest)
        have hrt := rtMembers (kv2 :: fs'') f rest (by simp) hsz2
        rw [ht] at hrt hv
        have h1 : serMembers ((k, v) :: kv2 :: fs'') ++ '}' :: rest
            = '"' :: (escString k.data ++ '"' :: (':' ::
                (serJ v ++ ',' :: (serMembers (kv2 :: fs'') ++ '}' :: rest)))) := by
          rw [serMembers_cons2]
          simp
        rw [h1, ht]
        simp [parseMembers, parseStringBody_escString, hv,
          skipWs_cons_not_ws _ (by decide : isJsonWs ':' = false),
          skipWs_cons_not_ws _ (by decide : isJsonWs ',' = false),
          skipWs_cons_not_ws _ (by decide : isJsonWs '"' = false), hrt]

end

mutual

theorem sizeJ_lt (v : JVal) : sizeJ v < 2 * (serJ v).length := by
  cases v with
  | jNull => simp [sizeJ, serJ]
  | jBool b => cases b <;> simp [sizeJ, serJ]
  | jNum n =>
    obtain ⟨c, t, hc, _⟩ := serInt_head n
    simp [sizeJ, serJ, hc]
    omega
  | jStr s => simp [sizeJ, serJ, serStr]; omega
  | jArr xs =>
    have h := sizeE_le xs
    simp only [sizeJ, serJ, List.length_cons, List.length_append]
    omega
  | jObj fs =>
    have h := sizeM_le fs
    simp only [sizeJ, serJ, List.length_cons, List.length_append]
    omega

theorem sizeE_le (xs : List JVal) : sizeE xs ≤ 2 * (serElems xs).length + 1 := by
  cases xs with
  | nil => simp [sizeE, serElems]
  | cons x xs' =>
    have h1 := sizeJ_lt x
    cases xs' with
    | nil =>
      have h0 : sizeE ([] : List JVal) = 1 := rfl
      simp only [sizeE, serElems_singleton, h0]
      omega
    | cons y ys =>
      have h2 := sizeE_le (y :: ys)
      simp only [sizeE] at h2 ⊢
      simp only [serElems_cons2, List.length_append, List.length_cons]
      omega

theorem sizeM_le (fs : List (String × JVal)) :
    sizeM fs ≤ 2 * (serMembers fs).length + 1 := by
  cases fs with
  | nil => simp [sizeM, serMembers]
  | cons kv fs' =>
    obtain ⟨k, v⟩ := kv
    have h1 := sizeJ_lt v
    cases fs' with
    | nil =>
      have h0 : sizeM ([] : List (String × JVal)) = 1 := rfl
      simp only [sizeM, serMembers_single, h0, List.length_cons, List.length_append]
      omega
    | cons kv2 fs'' =>
      have h2 := sizeM_le (kv2 :: fs'')
      obtain ⟨k2, v2⟩ := kv2
      simp only [sizeM] at h2 ⊢
      simp only [serMembers_cons2, List.length_append, List.length_cons]
      omega

end

theorem not_digit_of_ws {c : Char} (h : isJsonWs c = true) : isDigitChar c = false := by
  cases hd : isDigitChar c
  · rfl
  · rw [not_ws_of_digit hd] at h
    cases h

theorem headDigit_of_all_ws (ws : List Char) (h : ws.all isJsonWs = true) :
    headDigit ws = false := by
  cases ws with
  | nil => rfl
  | cons c t =>
    simp only [List.all_cons, Bool.and_eq_true] at h
    simpa [headDigit] using not_digit_of_ws h.1

/-- Top-level round trip: `jsonParse` reads back a serialized value, with
any trailing whitespace tolerated. -/
theorem jsonParse_ser (v : JVal) (ws : List Char) (hws : ws.all isJsonWs = true) :
    jsonParse (String.mk (serJ v ++ ws)) = some v := by
  have hlen : sizeJ v ≤ 2 * (serJ v ++ ws).length + 2 := by
    have h1 := sizeJ_lt v
    simp only [List.length_append]
    omega
  have hrt := rtVal v (2 * (serJ v ++ ws).length + 2) ws hlen (headDigit_of_all_ws ws hws)
  show jsonParse { data := serJ v ++ ws } = some v
  unfold jsonParse
  simp only [hrt]
  rw [if_pos]
  rw [skipWs, List.dropWhile_eq_nil_iff]
  intro x hx
  have := List.all_eq_true.mp hws x hx
  simpa using this

/-! ### The serializer emits no backtick (so a serialized body can never
close the fenced block early) -/

theorem digitChar_ne_backtick (n : Nat) : digitChar n ≠ '`' := by
  unfold digitChar
  split <;> decide

theorem hexDigitChar_ne_backtick : ∀ x : Nat, x < 16 → hexDigitChar x ≠ '`' := by
  decide

theorem backtick_not_mem_escapeChar (c : Char) : '`' ∉ escapeChar c := by
  by_cases h : needsEscape c = true
  · have h1 := Ne.symm (hexDigitChar_ne_backtick (c.toNat / 4096 % 16) (by omega))
    have h2 := Ne.symm (hexDigitChar_ne_backtick (c.toNat / 256 % 16) (by omega))
    have h3 := Ne.symm (hexDigitChar_ne_backtick (c.toNat / 16 % 16) (by omega))
    have h4 := Ne.symm (hexDigitChar_ne_backtick (c.toNat % 16) (by omega))
    simp [escapeChar, h, h1, h2, h3, h4]
  · have hfalse : needsEscape c = false := by
      cases hh : needsEscape c
      · rfl
      · exact absurd hh h
    have hg : ¬(c = '`') := by
      simp only [needsEscape, Bool.or_eq_false_iff, decide_eq_false_iff_not] at hfalse
      exact hfalse.1.2
    have hg2 : ¬('`' = c) := fun hh => hg hh.symm
    simp [escapeChar, hfalse, hg2]

theorem backtick_not_mem_escString (cs : List Char) : '`' ∉ escString cs := by
  induction cs with
  | nil => simp [escString]
  | cons c t ih =>
    simp [escString, backtick_not_mem_escapeChar c, ih]

theorem backtick_not_mem_serStr (s : String) : '`' ∉ serStr s := by
  simp [serStr, backtick_not_mem_escString s.data]

theorem backtick_not_mem_natDigitsAux (fuel n : Nat) :
    '`' ∉ natDigitsAux fuel n := by
  induction fuel generalizing n with
  | zero => simp [natDigitsAux]
  | succ f ih =>
    by_cases h10 : n < 10
    · simp [natDigitsAux, h10, Ne.symm (digitChar_ne_backtick n)]
    · simp [natDigitsAux, h10, Ne.symm (digitChar_ne_backtick (n % 10)), ih]

theorem backtick_not_mem_serInt (n : Int) : '`' ∉ serInt n := by
  by_cases hn : n < 0
  · simp [serInt, natDigits, hn, backtick_not_mem_natDigitsAux]
  · simp [serInt, natDigits, hn, backtick_not_mem_natDigitsAux]

mutual

theorem backtick_not_mem_serJ (v : JVal) : '`' ∉ serJ v := by
  cases v with
  | jNull => simp [serJ]
  | jBool b => cases b <;> simp [serJ]
  | jNum n => exact backtick_not_mem_serInt n
  | jStr s => exact backtick_not_mem_serStr s
  | jArr xs => simp [serJ, backtick_not_mem_serElems xs]
  | jObj fs => simp [serJ, backtick_not_mem_serMembers fs]

theorem backtick_not_mem_serElems (xs : List JVal) : '`' ∉ serElems xs := by
  cases xs with
  | nil => simp [serElems]
  | cons x xs' =>
    cases xs' with
    | nil =>
      rw [serElems_singleton]
      exact backtick_not_mem_serJ x
    | cons y ys =>
      rw [serElems_cons2]
      simp [backtick_not_mem_serJ x, backtick_not_mem_serElems (y :: ys)]

theorem backtick_not_mem_serMembers (fs : List (String × JVal)) :
    '`' ∉ serMembers fs := by
  cases fs with
  | nil => simp [serMembers]
  | cons kv fs' =>
    obtain ⟨k, v⟩ := kv
    cases fs' with
    | nil =>
      rw [serMembers_single]
      simp [backtick_not_mem_escString k.data, backtick_not_mem_serJ v]
    | cons kv2 fs'' =>
      rw [serMembers_cons2]
      simp [backtick_not_mem_escString k.data, backtick_not_mem_serJ v,
        backtick_not_mem_serMembers (kv2 :: fs'')]

end

/-! ## ActionParser (`parseAction`, `src/pages/chat.tsx`, lines 490–523) -/

/-- The fence delimiter of the action-block regex. -/
def fenceChars : List Char := ['`', '`', '`']

/-- The opening marker of the action-block regex,
`(three backticks)symptomsync-action`. -/
def markerChars : List Char :=
  ['`', '`', '`', 's', 'y', 'm', 'p', 't', 'o', 'm', 's', 'y', 'n', 'c',
   '-', 'a', 'c', 't', 'i', 'o', 'n']

theorem markerChars_spelling : String.mk markerChars = "```symptomsync-action" := rfl

/-- Strip an expected literal from the head of the input. -/
def stripPre : List Char → List Char → Option (List Char)
  | [], cs => some cs
  | _ :: _, [] => none
  | l :: ls, c :: cs => if l = c then stripPre ls cs else none

theorem stripPre_append (lit X : List Char) : stripPre lit (lit ++ X) = some X := by
  induction lit with
  | nil => rfl
  | cons l ls ih => simp [stripPre, ih]

/-- Whitespace for the regex class `\s` (the cases relevant here). -/
def isRegexWs (c : Char) : Bool :=
  c = ' ' || c = '\t' || c = '\n' || c = '\r'
    || c.toNat = 11 || c.toNat = 12 || c.toNat = 160

/-- The lazy capture `([\s\S]*?)` up to the next closing fence; `none`
when no closing fence follows. -/
def takeUntilFence : List Char → Option (List Char)
  | [] => none
  | c :: rest =>
    if fenceChars.isPrefixOf (c :: rest) then some []
    else (takeUntilFence rest).map (fun body => c :: body)

/-- The regex match for ``response.match(/```symptomsync-action\s*([\s\S]*?)```/)``:
scan for the first occurrence of the marker that is followed (after
greedy `\s*`) by a closing fence, and capture the body in between. -/
def findFencedBody : List Char → Option (List Char)
  | [] => none
  | c :: rest =>
    match stripPre markerChars (c :: rest) with
    | some after =>
      (match takeUntilFence (after.dropWhile isRegexWs) with
       | some body => some body
       | none => findFencedBody rest)
    | none => findFencedBody rest

/-- The greedy fallback match for `response.match(/\{[\s\S]*\}/)`: from
the first `{` through the last `}` (if the latter follows the former). -/
def braceSlice (cs : List Char) : Option (List Char) :=
  let pre := cs.dropWhile (fun c => c ≠ '{')
  let post := (pre.reverse.dropWhile (fun c => c ≠ '}')).reverse
  if post = [] then none else some post

/-- The acceptance test of `parseAction`: the parsed value is truthy, its
`entity` is one of the three known entities and its `intent` one of the
three known intents. (The `data` field is NOT checked — see the
corrected claim C3.) -/
def validAction (v : JVal) : Bool :=
  jsTruthy v &&
    (match jsGet v "entity" with
     | some (.jStr s) => s = "appointment" || s = "medication" || s = "health_log"
     | _ => false) &&
    (match jsGet v "intent" with
     | some (.jStr s) => s = "create" || s = "update" || s = "delete"
     | _ => false)

/-- View of the accepted JSON object as the staged payload (the source
returns the parsed object itself; the pipeline only ever reads its
`entity`, `intent` and `data` properties). -/
def toPending (v : JVal) : Pending :=
  { entity :=
      match jsGet v "entity" with
      | some (.jStr s) => s
      | _ => ""
    intent :=
      match jsGet v "intent" with
      | some (.jStr s) => s
      | _ => ""
    data := jsGet v "data" }

/-- `tryParse` from `parseAction`: JSON-parse a candidate and validate. -/
def tryParseCandidate (raw : Option String) : Option Pending :=
  match raw with
  | none => none
  | some r =>
    match jsonParse r with
    | none => none
    | some parsed => if validAction parsed then some (toPending parsed) else none

/-- `parseAction` from `src/pages/chat.tsx`: fenced block first, then the
bare-JSON-blob fallback. -/
def parseAction (response : String) : Option Pending :=
  match tryParseCandidate ((findFencedBody response.data).map String.mk) with
  | some p => some p
  | none =>
    match braceSlice response.data with
    | some cs => tryParseCandidate (some (String.mk cs))
    | none => none

/-- The §6 wire format: a fenced `symptomsync-action` block whose body is
the JSON serialization of the payload. -/
def wireFormat (e i : String) (d : JVal) : String :=
  String.mk (markerChars ++ '\n' ::
    (serJ (.jObj [("entity", .jStr e), ("intent", .jStr i), ("data", d)])
      ++ '\n' :: fenceChars))

theorem takeUntilFence_clean (cs : List Char) (h : '`' ∉ cs) :
    takeUntilFence (cs ++ fenceChars) = some cs := by
  induction cs with
  | nil => rfl
  | cons c t ih =>
    have hc : c ≠ '`' := fun hh => h (by simp [hh])
    have hbe : ('`' == c) = false := by
      cases hb : '`' == c
      · rfl
      · have hbc : '`' = c := by simpa using hb
        exact absurd hbc.symm hc
    have hpre : fenceChars.isPrefixOf (c :: (t ++ fenceChars)) = false := by
      simp [fenceChars, List.isPrefixOf, hbe]
    have ht : '`' ∉ t := fun hh => h (List.mem_cons_of_mem _ hh)
    simp [takeUntilFence, hpre, ih ht]

theorem findFencedBody_append (X body : List Char)
    (hb : takeUntilFence (X.dropWhile isRegexWs) = some body) :
    findFencedBody (markerChars ++ X) = some body := by
  have hstrip2 : stripPre markerChars
      ('`' :: (['`', '`', 's', 'y', 'm', 'p', 't', 'o', 'm', 's', 'y', 'n', 'c',
        '-', 'a', 'c', 't', 'i', 'o', 'n'] ++ X)) = some X :=
    stripPre_append markerChars X
  show findFencedBody
      ('`' :: (['`', '`', 's', 'y', 'm', 'p', 't', 'o', 'm', 's', 'y', 'n', 'c',
        '-', 'a', 'c', 't', 'i', 'o', 'n'] ++ X)) = some body
  rw [show findFencedBody
      ('`' :: (['`', '`', 's', 'y', 'm', 'p', 't', 'o', 'm', 's', 'y', 'n', 'c',
        '-', 'a', 'c', 't', 'i', 'o', 'n'] ++ X))
      = (match stripPre markerChars
          ('`' :: (['`', '`', 's', 'y', 'm', 'p', 't', 'o', 'm', 's', 'y', 'n', 'c',
            '-', 'a', 'c', 't', 'i', 'o', 'n'] ++ X)) with
        | some after =>
          (match takeUntilFence (after.dropWhile isRegexWs) with
           | some b => some b
           | none => findFencedBody
               (['`', '`', 's', 'y', 'm', 'p', 't', 'o', 'm', 's', 'y', 'n', 'c',
                 '-', 'a', 'c', 't', 'i', 'o', 'n'] ++ X))
        | none => findFencedBody
            (['`', '`', 's', 'y', 'm', 'p', 't', 'o', 'm', 's', 'y', 'n', 'c',
              '-', 'a', 'c', 't', 'i', 'o', 'n'] ++ X)) from rfl]
  rw [hstrip2]
  show (match takeUntilFence (X.dropWhile isRegexWs) with
    | some b => some b
    | none => findFencedBody
        (['`', '`', 's', 'y', 'm', 'p', 't', 'o', 'm', 's', 'y', 'n', 'c',
          '-', 'a', 'c', 't', 'i', 'o', 'n'] ++ X)) = some body
  rw [hb]

/-- C5: a well-formed ActionPayload (a known entity, a known intent and a
`data` value), serialized as JSON inside a fenced code block whose
language tag is `symptomsync-action`, is read back by `parseAction` as
exactly the original payload (round-trip). -/
theorem parseAction_wire_roundtrip (e i : String) (d : JVal)
    (he : e = "appointment" ∨ e = "medication" ∨ e = "health_log")
    (hi : i = "create" ∨ i = "update" ∨ i = "delete") :
    parseAction (wireFormat e i d) = some ⟨e, i, some d⟩ := by
  have hobjHead : serJ (.jObj [("entity", .jStr e), ("intent", .jStr i), ("data", d)])
        ++ '\n' :: fenceChars
      = '{' :: (serMembers [("entity", .jStr e), ("intent", .jStr i), ("data", d)]
          ++ '}' :: ('\n' :: fenceChars)) := by
    simp [serJ]
  have hnb : '`' ∉ serJ (.jObj [("entity", .jStr e), ("intent", .jStr i), ("data", d)])
        ++ ['\n'] := by
    simp only [List.mem_append, List.mem_singleton]
    rintro (h | h)
    · exact backtick_not_mem_serJ _ h
    · cases h
  have htake : takeUntilFence
      (('\n' :: (serJ (.jObj [("entity", .jStr e), ("intent", .jStr i), ("data", d)])
        ++ '\n' :: fenceChars)).dropWhile isRegexWs)
      = some (serJ (.jObj [("entity", .jStr e), ("intent", .jStr i), ("data", d)])
          ++ ['\n']) := by
    rw [List.dropWhile_cons]
    rw [if_pos (by decide : isRegexWs '\n' = true)]
    rw [hobjHead, List.dropWhile_cons,
      if_neg (by decide : ¬isRegexWs '{' = true)]
    rw [← hobjHead]
    have hassoc : serJ (.jObj [("entity", .jStr e), ("intent", .jStr i), ("data", d)])
          ++ '\n' :: fenceChars
        = (serJ (.jObj [("entity", .jStr e), ("intent", .jStr i), ("data", d)])
            ++ ['\n']) ++ fenceChars := by
      simp
    rw [hassoc]
    exact takeUntilFence_clean _ hnb
  have hfind := findFencedBody_append _ _ htake
  have hjson := jsonParse_ser
    (.jObj [("entity", .jStr e), ("intent", .jStr i), ("data", d)]) ['\n']
    (by decide)
  have hvalid : validAction
      (.jObj [("entity", .jStr e), ("intent", .jStr i), ("data", d)]) = true := by
    rcases he with he | he | he <;> rcases hi with hi | hi | hi <;>
      (subst he; subst hi; rfl)
  show (match tryParseCandidate ((findFencedBody (wireFormat e i d).data).map String.mk)
      with
    | some p => some p
    | none =>
      match braceSlice (wireFormat e i d).data with
      | some cs => tryParseCandidate (some (String.mk cs))
      | none => none) = some ⟨e, i, some d⟩
  have hdata : (wireFormat e i d).data
      = markerChars ++ ('\n' ::
          (serJ (.jObj [("entity", .jStr e), ("intent", .jStr i), ("data", d)])
            ++ '\n' :: fenceChars)) := rfl
  rw [hdata, hfind]
  show (match tryParseCandidate (some (String.mk
      (serJ (.jObj [("entity", .jStr e), ("intent", .jStr i), ("data", d)]) ++ ['\n'])))
      with
    | some p => some p
    | none => _) = some ⟨e, i, some d⟩
  simp only [tryParseCandidate, hjson, hvalid, if_true]
  rfl

/-- Witness: the round trip at a concrete medication/create payload. -/
theorem parseAction_wire_roundtrip_witness :
    parseAction (wireFormat "medication" "create"
        (.jObj [("medication_name", .jStr "Aspirin")]))
      = some ⟨"medication", "create",
          some (.jObj [("medication_name", .jStr "Aspirin")])⟩ :=
  parseAction_wire_roundtrip "medication" "create"
    (.jObj [("medication_name", .jStr "Aspirin")])
    (Or.inr (Or.inl rfl)) (Or.inl rfl)

/-- A fenced action block whose JSON has a valid entity and intent but no
`data` field at all. -/
def candidateWithoutData : String :=
  "```symptomsync-action\n\x7b\"entity\":\"appointment\",\"intent\":\"create\"\x7d\n```"

/-- C3 counterexample: `parseAction` accepts a candidate whose `data`
field is absent — the claim that such a candidate yields `null` is false
on the code (the validation checks only `entity` and `intent`). -/
theorem parseAction_accepts_missing_data :
    parseAction candidateWithoutData = some ⟨"appointment", "create", none⟩ := by
  rfl

theorem tryParseCandidate_valid (raw : Option String) (p : Pending)
    (h : tryParseCandidate raw = some p) :
    (p.entity = "appointment" ∨ p.entity = "medication" ∨ p.entity = "health_log")
    ∧ (p.intent = "create" ∨ p.intent = "update" ∨ p.intent = "delete") := by
  cases raw with
  | none => cases h
  | some r =>
    simp only [tryParseCandidate] at h
    cases hj : jsonParse r with
    | none => rw [hj] at h; cases h
    | some parsed =>
      rw [hj] at h
      by_cases hv : validAction parsed = true
      · simp only [hv, if_true, Option.some.injEq] at h
        subst h
        simp only [validAction, Bool.and_eq_true] at hv
        obtain ⟨⟨-, hent⟩, hint⟩ := hv
        constructor
        · cases hge : jsGet parsed "entity" with
          | none =>
            rw [hge] at hent
            cases hent
          | some ev =>
            rw [hge] at hent
            cases ev with
            | jStr s =>
              simp only [Bool.or_eq_true, decide_eq_true_eq] at hent
              simp only [toPending, hge]
              tauto
            | jNull => cases hent
            | jBool b => cases hent
            | jNum n => cases hent
            | jArr xs => cases hent
            | jObj fs => cases hent
        · cases hgi : jsGet parsed "intent" with
          | none =>
            rw [hgi] at hint
            cases hint
          | some iv =>
            rw [hgi] at hint
            cases iv with
            | jStr s =>
              simp only [Bool.or_eq_true, decide_eq_true_eq] at hint
              simp only [toPending, hgi]
              tauto
            | jNull => cases hint
            | jBool b => cases hint
            | jNum n => cases hint
            | jArr xs => cases hint
            | jObj fs => cases hint
      · simp [hv] at h

/-- C3 (amended): `parseAction` returns a non-null payload only when the
candidate's `entity` is one of the three known entities and its `intent`
one of the three known intents; the `data` field is not checked and may
be absent. -/
theorem parseAction_validates_entity_intent (s : String) (p : Pending)
    (h : parseAction s = some p) :
    (p.entity = "appointment" ∨ p.entity = "medication" ∨ p.entity = "health_log")
    ∧ (p.intent = "create" ∨ p.intent = "update" ∨ p.intent = "delete") := by
  simp only [parseAction] at h
  cases hf : tryParseCandidate ((findFencedBody s.data).map String.mk) with
  | some q =>
    rw [hf] at h
    have hq : q = p := by injection h
    subst hq
    exact tryParseCandidate_valid _ _ hf
  | none =>
    rw [hf] at h
    cases hb : braceSlice s.data with
    | none => rw [hb] at h; cases h
    | some cs =>
      rw [hb] at h
      exact tryParseCandidate_valid _ _ h

/-- Witness: the amended C3 theorem at a concrete bare-JSON candidate. -/
theorem parseAction_validates_entity_intent_witness :
    ("medication" = "appointment" ∨ "medication" = "medication"
      ∨ "medication" = "health_log")
    ∧ ("delete" = "create" ∨ "delete" = "update" ∨ "delete" = "delete") :=
  parseAction_validates_entity_intent
    "\x7b\"entity\":\"medication\",\"intent\":\"delete\"\x7d"
    ⟨"medication", "delete", none⟩ (by rfl)

/-! ## Entities, collaborators, resolution and the confirmation-apply
pipeline (`src/pages/chat.tsx`, lines 615–898, and the entity schemas of
`src/lib/appointmentReminders.ts`, `src/lib/reminders.ts`,
`src/lib/healthLogs.ts`) -/

structure AppointmentReminder where
  id : String
  user_profile_id : String
  appointment_name : String
  date : String

structure MedicationReminder where
  id : String
  user_profile_id : String
  medication_name : String
  dosage : Option String
  reminder_time : String
  recurrence : Option String

structure HealthLog where
  id : String
  user_profile_id : String
  symptom_type : Option String
  severity : Option Int
  mood : Option String
  medication_intake : Option String
  notes : Option String
  start_date : String
  end_date : Option String

/-- A thrown JavaScript value: an `Error` carrying its message, or any
other thrown value. -/
inductive JsErr where
  | error : String → JsErr
  | nonError : JsErr

/-- The message the apply handler surfaces:
`err instanceof Error ? err.message : <generic fallback>`. -/
def surfaceMsg : JsErr → String
  | .error m => m
  | .nonError => "Failed to apply AI suggestion."

/-- Property read `data[k]` on the action's (possibly absent) `data` bag:
reading a property of `undefined` or `null` throws a TypeError. -/
def dget (data : Option JVal) (k : String) : Except JsErr (Option JVal) :=
  match data with
  | none =>
    .error (.error ("Cannot read properties of undefined (reading " ++ k ++ ")"))
  | some .jNull =>
    .error (.error ("Cannot read properties of null (reading " ++ k ++ ")"))
  | some v => .ok (jsGet v k)

/-- `typeof x === "string" ? x : undefined`. -/
def asStr (v : Option JVal) : Option String :=
  match v with
  | some (.jStr s) => some s
  | _ => none

/-- `Number(s)` on a string; `none` models `NaN`. A whitespace-only
string converts to `0`; otherwise an optional sign followed by decimal
digits (the integer fragment, see the file header). -/
def jsNumberOfString (s : String) : Option Int :=
  let t := jsTrim s
  if t = "" then some 0
  else
    match t.data with
    | '-' :: rest =>
      if rest ≠ [] && rest.all Char.isDigit then
        some (-(((digitsToNat rest).getD 0 : Nat) : Int))
      else none
    | '+' :: rest =>
      if rest ≠ [] && rest.all Char.isDigit then
        some (((digitsToNat rest).getD 0 : Nat) : Int)
      else none
    | cs =>
      if cs.all Char.isDigit then some (((digitsToNat cs).getD 0 : Nat) : Int)
      else none

/-- `new Date(s).toISOString()`: throws a RangeError on an Invalid Date. -/
def jsToISO (env : DateEnv) (s : String) : Except JsErr String :=
  match env.parse s with
  | some t => .ok (env.toISOString t)
  | none => .error (.error "Invalid time value")

/-! ### Write operations and their payloads -/

structure ApptUpdatePayload where
  appointment_name : Option String
  date : Option String

structure MedUpdatePayload where
  medication_name : Option String
  reminder_time : Option String
  dosage : Option (Option String)
  recurrence : Option (Option String)

/-- Create payload for a health log; `severity` is `none` for `null`,
`some none` for `NaN` (a string that does not convert), `some (some n)`
for a number. -/
structure LogCreatePayload where
  user_profile_id : String
  symptom_type : String
  severity : Option (Option Int)
  mood : Option String
  medication_intake : Option String
  notes : Option String
  start_date : String

structure LogUpdatePayload where
  symptom_type : Option String
  severity : Option Int
  mood : Option String
  medication_intake : Option String
  notes : Option String
  start_date : Option String

/-- One call to a write persistence collaborator. -/
inductive WriteOp where
  | createAppointment (user_profile_id appointment_name date : String)
  | updateAppointment (id : String) (p : ApptUpdatePayload)
  | deleteAppointment (id : String)
  | createMedication (user_profile_id medication_name reminder_time : String)
      (dosage recurrence : Option String)
  | updateMedication (id : String) (p : MedUpdatePayload)
  | deleteMedication (id : String)
  | createHealthLog (p : LogCreatePayload)
  | updateHealthLog (id : String) (p : LogUpdatePayload)
  | deleteHealthLog (id : String)

/-- Oracles for the persistence collaborators of one apply run: the
authenticated user, the resolution-time list fetches, the write call, and
the post-write refresh fetches. Each may throw. -/
structure Collab where
  user : Option String
  fetchAppts : Except JsErr (List AppointmentReminder)
  fetchMeds : Except JsErr (List MedicationReminder)
  fetchLogs : Except JsErr (List HealthLog)
  writeResult : WriteOp → Except JsErr Unit
  refreshAppts : Except JsErr (List AppointmentReminder)
  refreshMeds : Except JsErr (List MedicationReminder)
  refreshLogs : Except JsErr (List HealthLog)

structure ChatMessage where
  role : String
  text : String

/-- The chat-session state the apply/dismiss handlers touch. -/
structure ChatState where
  messages : List ChatMessage
  pendingAction : Option Pending
  latestAppts : List AppointmentReminder
  latestMeds : List MedicationReminder
  latestLogs : List HealthLog

/-- JS truthiness of a `string | null | undefined` value: the empty
string is falsy (used wherever the source tests `dateIso` or an
id with `if (x)` / `x && ...`). -/
def truthyStr : Option String → Option String
  | some s => if s ≠ "" then some s else none
  | none => none

/-- The candidate's descriptive-name key: the lower-cased string under
the given key, or the empty string when absent or not a string. -/
def nameKeyOf (v : Option JVal) : String :=
  match v with
  | some (.jStr s) => jsToLower s
  | _ => ""

/-! ### Entity resolution (`resolveAppointmentId` and friends) -/

/-- The `appts.find(...)` search of `resolveAppointmentId`: both
conditions are computed for every record (so an unparsable stored date
throws even when the name already matches, as in the source). -/
def findApptMatch (env : DateEnv) (name : String) (dateIso : Option String) :
    List AppointmentReminder → Except JsErr (Option AppointmentReminder)
  | [] => .ok none
  | a :: rest => do
    let sameName := name ≠ "" && jsToLower a.appointment_name == name
    let sameDate ←
      match dateIso with
      | none => pure false
      | some iso => do
        let t1 ← jsToISO env a.date
        let t2 ← jsToISO env iso
        pure (t1 == t2)
    if sameName || sameDate then pure (some a)
    else findApptMatch env name dateIso rest

def resolveAppointmentId (env : DateEnv) (c : Collab)
    (latestAppts : List AppointmentReminder) (data : Option JVal) :
    Except JsErr (Option String) := do
  let idv ← dget data "id"
  match asStr idv with
  | some s => return (some s)
  | none => do
    let appts ← if latestAppts.length ≠ 0 then pure latestAppts else c.fetchAppts
    let namev ← dget data "appointment_name"
    let name := nameKeyOf namev
    let datev ← dget data "date"
    let dateIso := truthyStr (parseDateTime env (asStr datev))
    let m ← findApptMatch env name dateIso appts
    return m.map (fun a => a.id)

def findMedMatch (env : DateEnv) (name : String) (timeIso : Option String) :
    List MedicationReminder → Except JsErr (Option MedicationReminder)
  | [] => .ok none
  | m :: rest => do
    let sameName := name ≠ "" && jsToLower m.medication_name == name
    let sameTime ←
      match timeIso with
      | none => pure false
      | some iso => do
        let t1 ← jsToISO env m.reminder_time
        let t2 ← jsToISO env iso
        pure (t1 == t2)
    if sameName || sameTime then pure (some m)
    else findMedMatch env name timeIso rest

def resolveMedicationId (env : DateEnv) (c : Collab)
    (latestMeds : List MedicationReminder) (data : Option JVal) :
    Except JsErr (Option String) := do
  let idv ← dget data "id"
  match asStr idv with
  | some s => return (some s)
  | none => do
    let meds ← if latestMeds.length ≠ 0 then pure latestMeds else c.fetchMeds
    let namev ← dget data "medication_name"
    let name := nameKeyOf namev
    let timev ← dget data "reminder_time"
    let timeIso := truthyStr (parseDateTime env (asStr timev))
    let m ← findMedMatch env name timeIso meds
    return m.map (fun m => m.id)

def findLogMatch (env : DateEnv) (symptom : String) (startIso : Option String) :
    List HealthLog → Except JsErr (Option HealthLog)
  | [] => .ok none
  | l :: rest => do
    let sameSymptom := symptom ≠ "" && jsToLower (l.symptom_type.getD "") == symptom
    let sameStart ←
      match startIso with
      | none => pure false
      | some iso => do
        let t1 ← jsToISO env l.start_date
        let t2 ← jsToISO env iso
        pure (t1 == t2)
    if sameSymptom || sameStart then pure (some l)
    else findLogMatch env symptom startIso rest

def resolveHealthLogId (env : DateEnv) (c : Collab)
    (latestLogs : List HealthLog) (data : Option JVal) :
    Except JsErr (Option String) := do
  let idv ← dget data "id"
  match asStr idv with
  | some s => return (some s)
  | none => do
    let logs ← if latestLogs.length ≠ 0 then pure latestLogs else c.fetchLogs
    let symv ← dget data "symptom_type"
    let symptom := nameKeyOf symv
    let startv ← dget data "start_date"
    let startIso := truthyStr (parseDateTime env (asStr startv))
    let m ← findLogMatch env symptom startIso logs
    return m.map (fun l => l.id)

/-! ### The apply pipeline -/

inductive EntityKind where
  | appointment | medication | health_log

/-- What the `try` body of `applyAction` decides to do once validation
and resolution are done: nothing at all (unknown entity), refresh a
snapshot without writing (known entity, unknown intent), or a write
followed by a success toast and a refresh of the entity's snapshot. -/
inductive Plan where
  | noop
  | write (op : WriteOp) (successMsg : String) (k : EntityKind)
  | refreshOnly (k : EntityKind)

/-- The validation / resolution / payload-building phase of
`applyAction` (chat.tsx lines 702–887 up to each write call), as a pure
function of the staged action. Mirrors the source's branch order:
field checks before date parsing, resolution before payload building,
payload building before the empty-payload check. -/
def planAction (env : DateEnv) (c : Collab) (st : ChatState) (uid : String)
    (pa : Pending) : Except JsErr Plan :=
  if pa.entity = "appointment" then
    let data := pa.data
    if pa.intent = "create" then do
      let namev ← dget data "appointment_name"
      match namev with
      | some (.jStr name) => do
        let datev ← dget data "date"
        match truthyStr (parseDateTime env (asStr datev)) with
        | some dateIso =>
          return .write (.createAppointment uid name dateIso)
            "Appointment created." .appointment
        | none =>
          throw (.error
            "Valid appointment date/time is required to create. Please provide a time.")
      | _ => throw (.error "Appointment name is required to create.")
    else if pa.intent = "update" then do
      let id? ← resolveAppointmentId env c st.latestAppts data
      match truthyStr id? with
      | none => throw (.error "Unable to find appointment to update.")
      | some id => do
        let namev ← dget data "appointment_name"
        let datev ← dget data "date"
        let up : ApptUpdatePayload :=
          { appointment_name := asStr namev
            date := truthyStr (parseDateTime env (asStr datev)) }
        if up.appointment_name = none ∧ up.date = none then
          throw (.error "No valid fields to update.")
        else
          return .write (.updateAppointment id up) "Appointment updated." .appointment
    else if pa.intent = "delete" then do
      let id? ← resolveAppointmentId env c st.latestAppts data
      match truthyStr id? with
      | none => throw (.error "Unable to find appointment to delete.")
      | some id =>
        return .write (.deleteAppointment id) "Appointment deleted." .appointment
    else return .refreshOnly .appointment
  else if pa.entity = "medication" then
    let data := pa.data
    if pa.intent = "create" then do
      let namev ← dget data "medication_name"
      match namev with
      | some (.jStr name) => do
        let timev ← dget data "reminder_time"
        match truthyStr (parseDateTime env (asStr timev)) with
        | some timeIso => do
          let dosagev ← dget data "dosage"
          let recv ← dget data "recurrence"
          return .write
            (.createMedication uid name timeIso (asStr dosagev) (asStr recv))
            "Medication reminder created." .medication
        | none => throw (.error "Valid reminder time is required to create.")
      | _ => throw (.error "Medication name is required to create.")
    else if pa.intent = "update" then do
      let id? ← resolveMedicationId env c st.latestMeds data
      match truthyStr id? with
      | none => throw (.error "Unable to find medication to update.")
      | some id => do
        let namev ← dget data "medication_name"
        let timev ← dget data "reminder_time"
        let dosagev ← dget data "dosage"
        let recv ← dget data "recurrence"
        let up : MedUpdatePayload :=
          { medication_name := asStr namev
            reminder_time := truthyStr (parseDateTime env (asStr timev))
            dosage :=
              match dosagev with
              | some (.jStr s) => some (some s)
              | some .jNull => some none
              | _ => none
            recurrence :=
              match recv with
              | some (.jStr s) => some (some s)
              | some .jNull => some none
              | _ => none }
        if up.medication_name = none ∧ up.reminder_time = none ∧
            up.dosage = none ∧ up.recurrence = none then
          throw (.error "No valid fields to update.")
        else
          return .write (.updateMedication id up)
            "Medication reminder updated." .medication
    else if pa.intent = "delete" then do
      let id? ← resolveMedicationId env c st.latestMeds data
      match truthyStr id? with
      | none => throw (.error "Unable to find medication to delete.")
      | some id =>
        return .write (.deleteMedication id) "Medication reminder deleted." .medication
    else return .refreshOnly .medication
  else if pa.entity = "health_log" then
    let data := pa.data
    if pa.intent = "create" then do
      let symv ← dget data "symptom_type"
      match symv with
      | some (.jStr symptom) => do
        let startv ← dget data "start_date"
        let startIso := parseDateTime env (asStr startv)
        let sevv ← dget data "severity"
        let moodv ← dget data "mood"
        let miv ← dget data "medication_intake"
        let notesv ← dget data "notes"
        let p : LogCreatePayload :=
          { user_profile_id := uid
            symptom_type := symptom
            severity :=
              match sevv with
              | some (.jNum n) => some (some n)
              | some (.jStr s) => some (jsNumberOfString s)
              | _ => none
            mood := asStr moodv
            medication_intake := asStr miv
            notes := asStr notesv
            start_date := startIso.getD (env.toISOString env.now) }
        return .write (.createHealthLog p) "Health log created." .health_log
      | _ => throw (.error "Symptom type is required to create a health log.")
    else if pa.intent = "update" then do
      let id? ← resolveHealthLogId env c st.latestLogs data
      match truthyStr id? with
      | none => throw (.error "Unable to find health log to update.")
      | some id => do
        let symv ← dget data "symptom_type"
        let sevv ← dget data "severity"
        let moodv ← dget data "mood"
        let miv ← dget data "medication_intake"
        let notesv ← dget data "notes"
        let startv ← dget data "start_date"
        let up : LogUpdatePayload :=
          { symptom_type := asStr symv
            severity :=
              match sevv with
              | some (.jNum n) => some n
              | some (.jStr s) => jsNumberOfString s
              | _ => none
            mood := asStr moodv
            medication_intake := asStr miv
            notes := asStr notesv
            start_date := truthyStr (parseDateTime env (asStr startv)) }
        if up.symptom_type = none ∧ up.severity = none ∧ up.mood = none ∧
            up.medication_intake = none ∧ up.notes = none ∧
            up.start_date = none then
          throw (.error "No valid fields to update.")
        else
          return .write (.updateHealthLog id up) "Health log updated." .health_log
    else if pa.intent = "delete" then do
      let id? ← resolveHealthLogId env c st.latestLogs data
      match truthyStr id? with
      | none => throw (.error "Unable to find health log to delete.")
      | some id =>
        return .write (.deleteHealthLog id) "Health log deleted." .health_log
    else return .refreshOnly .health_log
  else return .noop

/-- Everything observable about one run of the apply (or dismiss)
handler: the resulting pending slot, snapshots and message list, the
write calls issued, the success toasts shown, and the error toast if
the `catch` block ran. -/
structure ApplyResult where
  pendingAction : Option Pending
  latestAppts : List AppointmentReminder
  latestMeds : List MedicationReminder
  latestLogs : List HealthLog
  messages : List ChatMessage
  writes : List WriteOp
  successToasts : List String
  errorToast : Option String

/-- The result of a run that changed nothing and showed nothing. -/
def noEffect (st : ChatState) : ApplyResult :=
  { pendingAction := st.pendingAction
    latestAppts := st.latestAppts
    latestMeds := st.latestMeds
    latestLogs := st.latestLogs
    messages := st.messages
    writes := []
    successToasts := []
    errorToast := none }

/-- The `catch` block: everything is left as it was (the pending slot
in particular) and an error toast with the surfaced message is shown. -/
def errResult (st : ChatState) (e : JsErr) : ApplyResult :=
  { noEffect st with errorToast := some (surfaceMsg e) }

/-- The Apply button handler `applyAction` (chat.tsx lines 693–898):
no-op when nothing is pending; throws when no user is authenticated;
then validation/resolution (`planAction`), the write call, the success
toast, the snapshot refresh, and only at the very end
`setPendingAction(null)` — so a throw anywhere keeps the action staged,
and a refresh failure after a successful write also keeps it staged. -/
def applyAction (env : DateEnv) (c : Collab) (st : ChatState) : ApplyResult :=
  match st.pendingAction with
  | none => noEffect st
  | some pa =>
    match c.user with
    | none => errResult st (.error "User not logged in")
    | some uid =>
      match planAction env c st uid pa with
      | .error e => errResult st e
      | .ok .noop => { noEffect st with pendingAction := none }
      | .ok (.refreshOnly k) =>
        match k with
        | .appointment =>
          match c.refreshAppts with
          | .error e => errResult st e
          | .ok lst =>
            { noEffect st with pendingAction := none, latestAppts := lst }
        | .medication =>
          match c.refreshMeds with
          | .error e => errResult st e
          | .ok lst =>
            { noEffect st with pendingAction := none, latestMeds := lst }
        | .health_log =>
          match c.refreshLogs with
          | .error e => errResult st e
          | .ok lst =>
            { noEffect st with pendingAction := none, latestLogs := lst }
      | .ok (.write op msg k) =>
        match c.writeResult op with
        | .error e => errResult st e
        | .ok _ =>
          match k with
          | .appointment =>
            match c.refreshAppts with
            | .error e =>
              { errResult st e with writes := [op], successToasts := [msg] }
            | .ok lst =>
              { noEffect st with
                  pendingAction := none
                  latestAppts := lst
                  writes := [op]
                  successToasts := [msg] }
          | .medication =>
            match c.refreshMeds with
            | .error e =>
              { errResult st e with writes := [op], successToasts := [msg] }
            | .ok lst =>
              { noEffect st with
                  pendingAction := none
                  latestMeds := lst
                  writes := [op]
                  successToasts := [msg] }
          | .health_log =>
            match c.refreshLogs with
            | .error e =>
              { errResult st e with writes := [op], successToasts := [msg] }
            | .ok lst =>
              { noEffect st with
                  pendingAction := none
                  latestLogs := lst
                  writes := [op]
                  successToasts := [msg] }

/-- The Dismiss / Cancel button handlers (chat.tsx lines 1028–1034 and
1068–1074): `setPendingAction(null)` and nothing else. -/
def dismissPendingAction (st : ChatState) : ApplyResult :=
  { noEffect st with pendingAction := none }

/-- The staging step of `handleSend` once the assistant reply arrives
(chat.tsx lines 459–468): try `parseAction` on the reply, and if it
yields nothing, try `deriveHealthLogFromInput` on the user's message.
`none` means the pending slot is left untouched. -/
def stagedAction (response userInput : String) : Option Pending :=
  match parseAction response with
  | some p => some p
  | none => deriveHealthLogFromInput userInput

end SymptomSync

namespace SymptomSync

/-- Reduction lemmas for the `Except` monad operations, used to unfold
the `do`-blocks of the pipeline in proofs. -/
theorem exc_bind_ok {e a b : Type} (x : a) (f : a → Except e b) :
    (Except.ok x >>= f) = f x := rfl

theorem exc_bind_error {e a b : Type} (err : e) (f : a → Except e b) :
    ((Except.error err : Except e a) >>= f) = Except.error err := rfl

theorem exc_pure_eq {e a : Type} (x : a) :
    (pure x : Except e a) = Except.ok x := rfl

theorem exc_throw_eq {e a : Type} (err : e) :
    (throw err : Except e a) = Except.error err := rfl

/-- A persistence environment where every call succeeds trivially. -/
def okCollab : Collab :=
  { user := some "user-1"
    fetchAppts := .ok []
    fetchMeds := .ok []
    fetchLogs := .ok []
    writeResult := fun _ => .ok ()
    refreshAppts := .ok []
    refreshMeds := .ok []
    refreshLogs := .ok [] }

/-- A chat state with empty history and snapshots and the given slot. -/
def mkState (pa : Option Pending) : ChatState :=
  { messages := [], pendingAction := pa, latestAppts := [], latestMeds := [],
    latestLogs := [] }

/-- C10: on the health_log update path, when `data.severity` is a string
that does not convert to a number (`Number(...)` is NaN), the update
payload the plan hands to the write collaborator carries no severity
field at all — a NaN severity is never written on the update path. -/
theorem healthLog_update_drops_nan_severity
    (env : DateEnv) (c : Collab) (st : ChatState) (uid : String) (pa : Pending)
    (fields : List (String × JVal)) (s : String)
    (hent : pa.entity = "health_log") (hint : pa.intent = "update")
    (hdata : pa.data = some (.jObj fields))
    (hsev : lookupLast fields "severity" = some (.jStr s))
    (hnan : jsNumberOfString s = none) :
    ∀ id p msg k,
      planAction env c st uid pa = .ok (.write (.updateHealthLog id p) msg k) →
      p.severity = none := by
  intro id p msg k hplan
  unfold planAction at hplan
  rw [hent, hint, hdata] at hplan
  simp only [String.reduceEq, if_false, if_true, reduceIte] at hplan
  cases hres : resolveHealthLogId env c st.latestLogs (some (.jObj fields)) with
  | error e =>
    rw [hres] at hplan
    simp only [exc_bind_error] at hplan
    exact absurd hplan (by simp)
  | ok r =>
    rw [hres] at hplan
    simp only [exc_bind_ok] at hplan
    cases htr : truthyStr r with
    | none =>
      rw [htr] at hplan
      simp only [exc_throw_eq] at hplan
      exact absurd hplan (by simp)
    | some id0 =>
      rw [htr] at hplan
      simp only [dget, jsGet, exc_bind_ok, hsev, hnan, exc_pure_eq] at hplan
      split at hplan
      · exact absurd hplan (by simp)
      · simp only [Except.ok.injEq, Plan.write.injEq, WriteOp.updateHealthLog.injEq] at hplan
        obtain ⟨⟨hid0, hp⟩, hmsg, hk⟩ := hplan
        rw [hp.symm]

/-- Fixtures for the C10 witness: a staged health-log update whose
severity is the non-numeric string "abc" but which carries a direct id
and a notes field, so planning reaches the write. -/
def paNanSeverity : Pending :=
  ⟨"health_log", "update",
    some (.jObj [("id", .jStr "log-1"), ("severity", .jStr "abc"),
      ("notes", .jStr "felt fine")])⟩

def pNanSeverity : LogUpdatePayload :=
  ⟨none, none, none, none, some "felt fine", none⟩

/-- Witness: the C10 theorem at a concrete staged update with severity
"abc". -/
theorem healthLog_update_drops_nan_severity_witness :
    planAction jsEnv2025 okCollab (mkState (some paNanSeverity)) "user-1" paNanSeverity =
      .ok (.write (.updateHealthLog "log-1" pNanSeverity)
        "Health log updated." .health_log) ∧
    pNanSeverity.severity = none :=
  ⟨rfl,
    healthLog_update_drops_nan_severity jsEnv2025 okCollab
      (mkState (some paNanSeverity)) "user-1" paNanSeverity
      [("id", .jStr "log-1"), ("severity", .jStr "abc"), ("notes", .jStr "felt fine")]
      "abc" rfl rfl rfl rfl rfl "log-1" pNanSeverity "Health log updated." .health_log rfl⟩

/-- C7: dismissing a staged pending action clears the single
pending-action slot and nothing else: no write-collaborator call of any
kind, no toasts, and the snapshots and message history are untouched. -/
theorem dismiss_clears_slot_only (st : ChatState) :
    (dismissPendingAction st).pendingAction = none ∧
    (dismissPendingAction st).writes = [] ∧
    (dismissPendingAction st).successToasts = [] ∧
    (dismissPendingAction st).errorToast = none ∧
    (dismissPendingAction st).latestAppts = st.latestAppts ∧
    (dismissPendingAction st).latestMeds = st.latestMeds ∧
    (dismissPendingAction st).latestLogs = st.latestLogs ∧
    (dismissPendingAction st).messages = st.messages :=
  ⟨rfl, rfl, rfl, rfl, rfl, rfl, rfl, rfl⟩

/-- C8: for the user message "I have a headache, severity 7, today 3pm",
when the assistant reply carries no action block (`parseAction` finds
nothing), the fallback deriver stages a health_log/create action whose
symptom_type is the first comma-separated segment, whose severity is the
number 7, and whose start_date fragment "today 3pm" resolves (in the
fixed UTC session with now = 2025-01-01T00:00:00Z) to today at 15:00. -/
theorem fallback_derives_headache_log (response : String)
    (h : parseAction response = none) :
    stagedAction response "I have a headache, severity 7, today 3pm" =
      some ⟨"health_log", "create", some (.jObj
        [("symptom_type", .jStr "I have a headache"),
         ("severity", .jNum 7),
         ("start_date", .jStr "today 3pm"),
         ("notes", .jStr "severity 7")])⟩ ∧
    parseDateTime jsEnv2025 (some "today 3pm") =
      some "2025-01-01T15:00:00.000Z" := by
  refine ⟨?_, rfl⟩
  unfold stagedAction
  rw [h]
  rfl

/-- Witness: the C8 theorem at the empty assistant reply. -/
theorem fallback_derives_headache_log_witness :
    parseAction "" = none ∧
    (stagedAction "" "I have a headache, severity 7, today 3pm" =
      some ⟨"health_log", "create", some (.jObj
        [("symptom_type", .jStr "I have a headache"),
         ("severity", .jNum 7),
         ("start_date", .jStr "today 3pm"),
         ("notes", .jStr "severity 7")])⟩ ∧
     parseDateTime jsEnv2025 (some "today 3pm") =
       some "2025-01-01T15:00:00.000Z") :=
  ⟨rfl, fallback_derives_headache_log "" rfl⟩

/-- A thrown plan (validation or resolution failure) makes the whole
apply run the catch block. Shared by the error-handling and
required-field theorems. -/
theorem applyAction_of_plan_error (env : DateEnv) (c : Collab) (st : ChatState)
    (uid : String) (pa : Pending) (e : JsErr)
    (hp : st.pendingAction = some pa) (hu : c.user = some uid)
    (he : planAction env c st uid pa = .error e) :
    applyAction env c st = errResult st e := by
  unfold applyAction
  simp only [hp, hu, he]

/-- C1: an error thrown anywhere while applying a staged action — no
authenticated user, a validation or resolution failure inside the plan,
or a write-collaborator failure — makes the run end in the catch block:
no write is recorded (in the write-failure case the failed call is the
only one and nothing is retried), an error toast with the surfaced
message is shown, every snapshot and the message list are unchanged, and
the pending action remains staged; conversely the slot ends cleared only
on runs that surfaced no error. -/
theorem applyAction_error_aborts :
    (∀ (env : DateEnv) (c : Collab) (st : ChatState) (pa : Pending) (e : JsErr),
      st.pendingAction = some pa →
      ((c.user = none ∧ e = .error "User not logged in") ∨
        (∃ uid, c.user = some uid ∧
          (planAction env c st uid pa = .error e ∨
            ∃ op msg k, planAction env c st uid pa = .ok (.write op msg k) ∧
              c.writeResult op = .error e))) →
      applyAction env c st = errResult st e) ∧
    (∀ (st : ChatState) (e : JsErr),
      (errResult st e).pendingAction = st.pendingAction ∧
      (errResult st e).writes = [] ∧
      (errResult st e).successToasts = [] ∧
      (errResult st e).errorToast = some (surfaceMsg e) ∧
      (errResult st e).latestAppts = st.latestAppts ∧
      (errResult st e).latestMeds = st.latestMeds ∧
      (errResult st e).latestLogs = st.latestLogs ∧
      (errResult st e).messages = st.messages) ∧
    (∀ (env : DateEnv) (c : Collab) (st : ChatState),
      (applyAction env c st).pendingAction = none →
      (applyAction env c st).errorToast = none) := by
  refine ⟨?_, ?_, ?_⟩
  · intro env c st pa e hp hdisj
    unfold applyAction
    rcases hdisj with ⟨hu, he⟩ | ⟨uid, hu, hcase⟩
    · simp only [hp, hu, he]
    · rcases hcase with hpl | ⟨op, msg, k, hpl, hw⟩
      · simp only [hp, hu, hpl]
      · simp only [hp, hu, hpl, hw]
  · intro st e
    exact ⟨rfl, rfl, rfl, rfl, rfl, rfl, rfl, rfl⟩
  · intro env c st
    cases hp : st.pendingAction with
    | none => intro _; simp [applyAction, hp, noEffect]
    | some pa =>
      cases hu : c.user with
      | none =>
        intro h
        exfalso
        simp [applyAction, hp, hu, errResult, noEffect] at h
      | some uid =>
        cases hpl : planAction env c st uid pa with
        | error e =>
          intro h
          exfalso
          simp [applyAction, hp, hu, hpl, errResult, noEffect] at h
        | ok plan =>
          cases plan with
          | noop => intro _; simp [applyAction, hp, hu, hpl, noEffect]
          | refreshOnly k =>
            cases k with
            | appointment =>
              cases hr : c.refreshAppts with
              | error e =>
                intro h
                exfalso
                simp [applyAction, hp, hu, hpl, hr, errResult, noEffect] at h
              | ok lst => intro _; simp [applyAction, hp, hu, hpl, hr, noEffect]
            | medication =>
              cases hr : c.refreshMeds with
              | error e =>
                intro h
                exfalso
                simp [applyAction, hp, hu, hpl, hr, errResult, noEffect] at h
              | ok lst => intro _; simp [applyAction, hp, hu, hpl, hr, noEffect]
            | health_log =>
              cases hr : c.refreshLogs with
              | error e =>
                intro h
                exfalso
                simp [applyAction, hp, hu, hpl, hr, errResult, noEffect] at h
              | ok lst => intro _; simp [applyAction, hp, hu, hpl, hr, noEffect]
          | write op msg k =>
            cases hw : c.writeResult op with
            | error e =>
              intro h
              exfalso
              simp [applyAction, hp, hu, hpl, hw, errResult, noEffect] at h
            | ok u =>
              cases k with
              | appointment =>
                cases hr : c.refreshAppts with
                | error e =>
                  intro h
                  exfalso
                  simp [applyAction, hp, hu, hpl, hw, hr, errResult, noEffect] at h
                | ok lst => intro _; simp [applyAction, hp, hu, hpl, hw, hr, noEffect]
              | medication =>
                cases hr : c.refreshMeds with
                | error e =>
                  intro h
                  exfalso
                  simp [applyAction, hp, hu, hpl, hw, hr, errResult, noEffect] at h
                | ok lst => intro _; simp [applyAction, hp, hu, hpl, hw, hr, noEffect]
              | health_log =>
                cases hr : c.refreshLogs with
                | error e =>
                  intro h
                  exfalso
                  simp [applyAction, hp, hu, hpl, hw, hr, errResult, noEffect] at h
                | ok lst => intro _; simp [applyAction, hp, hu, hpl, hw, hr, noEffect]

def noUserCollab : Collab := { okCollab with user := none }

def paEmptyAppt : Pending := ⟨"appointment", "create", some (.jObj [])⟩

/-- Witness: the C1 theorem at a run with no authenticated user. -/
theorem applyAction_error_aborts_witness :
    applyAction jsEnv2025 noUserCollab (mkState (some paEmptyAppt)) =
      errResult (mkState (some paEmptyAppt)) (.error "User not logged in") :=
  applyAction_error_aborts.1 jsEnv2025 noUserCollab (mkState (some paEmptyAppt))
    paEmptyAppt (.error "User not logged in") rfl (Or.inl ⟨rfl, rfl⟩)

theorem dget_obj (fields : List (String × JVal)) (k : String) :
    dget (some (.jObj fields)) k = .ok (lookupLast fields k) := rfl

/-- The resolver the apply handler uses for the staged action's entity. -/
def resolveFor (env : DateEnv) (c : Collab) (st : ChatState) (pa : Pending) :
    Except JsErr (Option String) :=
  if pa.entity = "appointment" then
    resolveAppointmentId env c st.latestAppts pa.data
  else if pa.entity = "medication" then
    resolveMedicationId env c st.latestMeds pa.data
  else
    resolveHealthLogId env c st.latestLogs pa.data

/-- The required-field matrix: the staged action's data object omits (or
leaves unresolvable) a field the matrix marks required for its
(entity, intent) pair — for update/delete the required item is the
resolved id, missing when resolution finds no record. -/
def requiredFieldMissing (env : DateEnv) (c : Collab) (st : ChatState)
    (pa : Pending) (fields : List (String × JVal)) : Prop :=
  pa.data = some (.jObj fields) ∧
    ((pa.intent = "create" ∧
      ((pa.entity = "appointment" ∧
          (asStr (lookupLast fields "appointment_name") = none ∨
            truthyStr (parseDateTime env (asStr (lookupLast fields "date"))) = none)) ∨
        (pa.entity = "medication" ∧
          (asStr (lookupLast fields "medication_name") = none ∨
            truthyStr (parseDateTime env
              (asStr (lookupLast fields "reminder_time"))) = none)) ∨
        (pa.entity = "health_log" ∧
          asStr (lookupLast fields "symptom_type") = none))) ∨
      ((pa.intent = "update" ∨ pa.intent = "delete") ∧
        (pa.entity = "appointment" ∨ pa.entity = "medication" ∨
          pa.entity = "health_log") ∧
        ∃ r, resolveFor env c st pa = .ok r ∧ truthyStr r = none))

/-- C2: for every (entity, intent) pair of the required-field matrix,
applying a staged action whose data object omits a required field —
create without its required name/symptom field or without a resolvable
required date/time, update/delete whose id resolution finds nothing —
is rejected with a validation error thrown by the planning phase, so no
write-collaborator call is made and the action stays staged. -/
theorem requiredField_rejected_before_write
    (env : DateEnv) (c : Collab) (st : ChatState) (uid : String) (pa : Pending)
    (fields : List (String × JVal))
    (hp : st.pendingAction = some pa) (hu : c.user = some uid)
    (hmiss : requiredFieldMissing env c st pa fields) :
    (∃ msg, planAction env c st uid pa = .error (.error msg)) ∧
    (applyAction env c st).writes = [] ∧
    (applyAction env c st).pendingAction = some pa ∧
    (applyAction env c st).errorToast.isSome = true := by
  obtain ⟨hdata, hcases⟩ := hmiss
  have herr : ∃ msg, planAction env c st uid pa = .error (.error msg) := by
    rcases hcases with ⟨hcre, hentc⟩ | ⟨hintc, hentc, r, hres, htr⟩
    · rcases hentc with ⟨hent, hsub⟩ | ⟨hent, hsub⟩ | ⟨hent, hsub⟩
      · -- appointment create
        unfold planAction
        rw [hdata]
        simp only [hent, hcre, String.reduceEq, reduceIte, dget_obj, exc_bind_ok,
          exc_throw_eq]
        rcases hsub with hstr | hdate
        · cases hnv : lookupLast fields "appointment_name" with
          | none => exact ⟨_, rfl⟩
          | some jv =>
            cases jv with
            | jStr s2 => rw [hnv] at hstr; simp [asStr] at hstr
            | jNull => exact ⟨_, rfl⟩
            | jBool b => exact ⟨_, rfl⟩
            | jNum n => exact ⟨_, rfl⟩
            | jArr xs => exact ⟨_, rfl⟩
            | jObj ms => exact ⟨_, rfl⟩
        · cases hnv : lookupLast fields "appointment_name" with
          | none => exact ⟨_, rfl⟩
          | some jv =>
            cases jv with
            | jStr s2 => rw [hdate]; exact ⟨_, rfl⟩
            | jNull => exact ⟨_, rfl⟩
            | jBool b => exact ⟨_, rfl⟩
            | jNum n => exact ⟨_, rfl⟩
            | jArr xs => exact ⟨_, rfl⟩
            | jObj ms => exact ⟨_, rfl⟩
      · -- medication create
        unfold planAction
        rw [hdata]
        simp only [hent, hcre, String.reduceEq, reduceIte, dget_obj, exc_bind_ok,
          exc_throw_eq]
        rcases hsub with hstr | hdate
        · cases hnv : lookupLast fields "medication_name" with
          | none => exact ⟨_, rfl⟩
          | some jv =>
            cases jv with
            | jStr s2 => rw [hnv] at hstr; simp [asStr] at hstr
            | jNull => exact ⟨_, rfl⟩
            | jBool b => exact ⟨_, rfl⟩
            | jNum n => exact ⟨_, rfl⟩
            | jArr xs => exact ⟨_, rfl⟩
            | jObj ms => exact ⟨_, rfl⟩
        · cases hnv : lookupLast fields "medication_name" with
          | none => exact ⟨_, rfl⟩
          | some jv =>
            cases jv with
            | jStr s2 => rw [hdate]; exact ⟨_, rfl⟩
            | jNull => exact ⟨_, rfl⟩
            | jBool b => exact ⟨_, rfl⟩
            | jNum n => exact ⟨_, rfl⟩
            | jArr xs => exact ⟨_, rfl⟩
            | jObj ms => exact ⟨_, rfl⟩
      · -- health_log create
        unfold planAction
        rw [hdata]
        simp only [hent, hcre, String.reduceEq, reduceIte, dget_obj, exc_bind_ok,
          exc_throw_eq]
        cases hnv : lookupLast fields "symptom_type" with
        | none => exact ⟨_, rfl⟩
        | some jv =>
          cases jv with
          | jStr s2 => rw [hnv] at hsub; simp [asStr] at hsub
          | jNull => exact ⟨_, rfl⟩
          | jBool b => exact ⟨_, rfl⟩
          | jNum n => exact ⟨_, rfl⟩
          | jArr xs => exact ⟨_, rfl⟩
          | jObj ms => exact ⟨_, rfl⟩
    · -- update/delete with unresolvable id
      rcases hentc with hent | hent | hent <;>
        [skip; skip; skip] <;>
        · unfold resolveFor at hres
          rw [hent] at hres
          simp only [String.reduceEq, reduceIte] at hres
          unfold planAction
          simp only [hent, String.reduceEq, reduceIte]
          rcases hintc with hi | hi <;>
            simp only [hi, String.reduceEq, reduceIte, hres, exc_bind_ok, htr,
              exc_throw_eq] <;>
            exact ⟨_, rfl⟩
  obtain ⟨msg, hpl⟩ := herr
  have happ := applyAction_of_plan_error env c st uid pa (.error msg) hp hu hpl
  rw [happ]
  exact ⟨⟨msg, hpl⟩, rfl, hp.symm ▸ rfl, rfl⟩

def paMissingName : Pending := ⟨"appointment", "create", some (.jObj [])⟩

/-- Witness: the C2 theorem at an appointment create whose data object
is empty. -/
theorem requiredField_rejected_before_write_witness :
    (∃ msg, planAction jsEnv2025 okCollab (mkState (some paMissingName)) "user-1"
        paMissingName = .error (.error msg)) ∧
    (applyAction jsEnv2025 okCollab (mkState (some paMissingName))).writes = [] ∧
    (applyAction jsEnv2025 okCollab (mkState (some paMissingName))).pendingAction =
      some paMissingName ∧
    (applyAction jsEnv2025 okCollab
      (mkState (some paMissingName))).errorToast.isSome = true :=
  requiredField_rejected_before_write jsEnv2025 okCollab
    (mkState (some paMissingName)) "user-1" paMissingName [] rfl rfl
    ⟨rfl, Or.inl ⟨rfl, Or.inl ⟨rfl, Or.inl rfl⟩⟩⟩

/-- The claim's match predicate for appointments: the record's name
matches the candidate name case-insensitively, OR the record's canonical
date/time instant equals the resolved candidate date/time. -/
def apptMatchesSpec (env : DateEnv) (nameKey : String) (dateIso : Option String)
    (a : AppointmentReminder) : Bool :=
  (decide (nameKey ≠ "") && (jsToLower a.appointment_name == nameKey)) ||
    (match dateIso with
     | some iso =>
       match env.parse a.date, env.parse iso with
       | some t1, some t2 => env.toISOString t1 == env.toISOString t2
       | _, _ => false
     | none => false)

theorem findApptMatch_ok (env : DateEnv) (name : String) (dateIso : Option String)
    (hiso : ∀ iso, dateIso = some iso → (env.parse iso).isSome) :
    ∀ l : List AppointmentReminder, (∀ a ∈ l, (env.parse a.date).isSome) →
      findApptMatch env name dateIso l =
        .ok (l.find? (apptMatchesSpec env name dateIso)) := by
  intro l
  induction l with
  | nil => intro _; rfl
  | cons a rest ih =>
    intro hl
    have ha : (env.parse a.date).isSome := hl a (List.mem_cons_self a rest)
    have hrest : ∀ b ∈ rest, (env.parse b.date).isSome :=
      fun b hb => hl b (List.mem_cons_of_mem a hb)
    obtain ⟨t1, ht1⟩ := Option.isSome_iff_exists.mp ha
    cases hdi : dateIso with
    | none =>
      subst hdi
      simp only [findApptMatch, exc_bind_ok, exc_pure_eq]
      by_cases hc : (decide (name ≠ "") &&
          (jsToLower a.appointment_name == name)) = true
      · simp only [hc, Bool.true_or, if_true, List.find?, apptMatchesSpec,
          Bool.or_false, reduceIte]
      · simp only [hc, Bool.false_or, Bool.or_false, Bool.false_eq_true, if_false,
          List.find?, apptMatchesSpec, reduceIte, ih hrest]
    | some iso =>
      obtain ⟨t2, ht2⟩ := Option.isSome_iff_exists.mp (hiso iso hdi)
      subst hdi
      simp only [findApptMatch, jsToISO, ht1, ht2, exc_bind_ok, exc_pure_eq]
      by_cases hc : ((decide (name ≠ "") &&
          (jsToLower a.appointment_name == name)) ||
          (env.toISOString t1 == env.toISOString t2)) = true
      · simp only [hc, if_true, List.find?, apptMatchesSpec, ht1, ht2, reduceIte]
      · simp only [hc, Bool.false_eq_true, if_false, List.find?, apptMatchesSpec,
          ht1, ht2, reduceIte, ih hrest]

/-- The claim's match predicate for medication reminders. -/
def medMatchesSpec (env : DateEnv) (nameKey : String) (timeIso : Option String)
    (m : MedicationReminder) : Bool :=
  (decide (nameKey ≠ "") && (jsToLower m.medication_name == nameKey)) ||
    (match timeIso with
     | some iso =>
       match env.parse m.reminder_time, env.parse iso with
       | some t1, some t2 => env.toISOString t1 == env.toISOString t2
       | _, _ => false
     | none => false)

/-- The claim's match predicate for health logs (the record's symptom
type, empty when null). -/
def logMatchesSpec (env : DateEnv) (symKey : String) (startIso : Option String)
    (l : HealthLog) : Bool :=
  (decide (symKey ≠ "") && (jsToLower (l.symptom_type.getD "") == symKey)) ||
    (match startIso with
     | some iso =>
       match env.parse l.start_date, env.parse iso with
       | some t1, some t2 => env.toISOString t1 == env.toISOString t2
       | _, _ => false
     | none => false)

theorem findMedMatch_ok (env : DateEnv) (name : String) (timeIso : Option String)
    (hiso : ∀ iso, timeIso = some iso → (env.parse iso).isSome) :
    ∀ l : List MedicationReminder, (∀ m ∈ l, (env.parse m.reminder_time).isSome) →
      findMedMatch env name timeIso l =
        .ok (l.find? (medMatchesSpec env name timeIso)) := by
  intro l
  induction l with
  | nil => intro _; rfl
  | cons a rest ih =>
    intro hl
    have ha : (env.parse a.reminder_time).isSome := hl a (List.mem_cons_self a rest)
    have hrest : ∀ b ∈ rest, (env.parse b.reminder_time).isSome :=
      fun b hb => hl b (List.mem_cons_of_mem a hb)
    obtain ⟨t1, ht1⟩ := Option.isSome_iff_exists.mp ha
    cases hdi : timeIso with
    | none =>
      subst hdi
      simp only [findMedMatch, exc_bind_ok, exc_pure_eq]
      by_cases hc : (decide (name ≠ "") &&
          (jsToLower a.medication_name == name)) = true
      · simp only [hc, Bool.true_or, if_true, List.find?, medMatchesSpec,
          Bool.or_false, reduceIte]
      · simp only [hc, Bool.false_or, Bool.or_false, Bool.false_eq_true, if_false,
          List.find?, medMatchesSpec, reduceIte, ih hrest]
    | some iso =>
      obtain ⟨t2, ht2⟩ := Option.isSome_iff_exists.mp (hiso iso hdi)
      subst hdi
      simp only [findMedMatch, jsToISO, ht1, ht2, exc_bind_ok, exc_pure_eq]
      by_cases hc : ((decide (name ≠ "") &&
          (jsToLower a.medication_name == name)) ||
          (env.toISOString t1 == env.toISOString t2)) = true
      · simp only [hc, if_true, List.find?, medMatchesSpec, ht1, ht2, reduceIte]
      · simp only [hc, Bool.false_eq_true, if_false, List.find?, medMatchesSpec,
          ht1, ht2, reduceIte, ih hrest]

theorem findLogMatch_ok (env : DateEnv) (sym : String) (startIso : Option String)
    (hiso : ∀ iso, startIso = some iso → (env.parse iso).isSome) :
    ∀ l : List HealthLog, (∀ g ∈ l, (env.parse g.start_date).isSome) →
      findLogMatch env sym startIso l =
        .ok (l.find? (logMatchesSpec env sym startIso)) := by
  intro l
  induction l with
  | nil => intro _; rfl
  | cons a rest ih =>
    intro hl
    have ha : (env.parse a.start_date).isSome := hl a (List.mem_cons_self a rest)
    have hrest : ∀ b ∈ rest, (env.parse b.start_date).isSome :=
      fun b hb => hl b (List.mem_cons_of_mem a hb)
    obtain ⟨t1, ht1⟩ := Option.isSome_iff_exists.mp ha
    cases hdi : startIso with
    | none =>
      subst hdi
      simp only [findLogMatch, exc_bind_ok, exc_pure_eq]
      by_cases hc : (decide (sym ≠ "") &&
          (jsToLower (a.symptom_type.getD "") == sym)) = true
      · simp only [hc, Bool.true_or, if_true, List.find?, logMatchesSpec,
          Bool.or_false, reduceIte]
      · simp only [hc, Bool.false_or, Bool.or_false, Bool.false_eq_true, if_false,
          List.find?, logMatchesSpec, reduceIte, ih hrest]
    | some iso =>
      obtain ⟨t2, ht2⟩ := Option.isSome_iff_exists.mp (hiso iso hdi)
      subst hdi
      simp only [findLogMatch, jsToISO, ht1, ht2, exc_bind_ok, exc_pure_eq]
      by_cases hc : ((decide (sym ≠ "") &&
          (jsToLower (a.symptom_type.getD "") == sym)) ||
          (env.toISOString t1 == env.toISOString t2)) = true
      · simp only [hc, if_true, List.find?, logMatchesSpec, ht1, ht2, reduceIte]
      · simp only [hc, Bool.false_eq_true, if_false, List.find?, logMatchesSpec,
          ht1, ht2, reduceIte, ih hrest]

/-- C6: for each entity kind, id resolution returns `data.id` directly
whenever it is a string (no search); otherwise it searches the snapshot
and returns the id of the first record, in snapshot iteration order,
whose descriptive name field matches case-insensitively OR whose
canonical date/time instant equals the resolved candidate date/time
(either condition suffices), and `undefined` (`none`) when no record
matches — `find?` returning `none` makes the mapped id `none`. -/
theorem resolver_first_match :
    (∀ (env : DateEnv) (c : Collab) (latest : List AppointmentReminder)
        (fields : List (String × JVal)) (s : String),
      asStr (lookupLast fields "id") = some s →
      resolveAppointmentId env c latest (some (.jObj fields)) = .ok (some s)) ∧
    (∀ (env : DateEnv) (c : Collab) (latest : List AppointmentReminder)
        (fields : List (String × JVal)),
      latest ≠ [] →
      asStr (lookupLast fields "id") = none →
      (∀ a ∈ latest, (env.parse a.date).isSome) →
      (∀ iso,
        truthyStr (parseDateTime env (asStr (lookupLast fields "date"))) = some iso →
        (env.parse iso).isSome) →
      resolveAppointmentId env c latest (some (.jObj fields)) =
        .ok ((latest.find? (apptMatchesSpec env
            (nameKeyOf (lookupLast fields "appointment_name"))
            (truthyStr (parseDateTime env (asStr (lookupLast fields "date")))))).map
          (fun a => a.id))) ∧
    (∀ (env : DateEnv) (c : Collab) (latest : List MedicationReminder)
        (fields : List (String × JVal)) (s : String),
      asStr (lookupLast fields "id") = some s →
      resolveMedicationId env c latest (some (.jObj fields)) = .ok (some s)) ∧
    (∀ (env : DateEnv) (c : Collab) (latest : List MedicationReminder)
        (fields : List (String × JVal)),
      latest ≠ [] →
      asStr (lookupLast fields "id") = none →
      (∀ m ∈ latest, (env.parse m.reminder_time).isSome) →
      (∀ iso,
        truthyStr (parseDateTime env
          (asStr (lookupLast fields "reminder_time"))) = some iso →
        (env.parse iso).isSome) →
      resolveMedicationId env c latest (some (.jObj fields)) =
        .ok ((latest.find? (medMatchesSpec env
            (nameKeyOf (lookupLast fields "medication_name"))
            (truthyStr (parseDateTime env
              (asStr (lookupLast fields "reminder_time")))))).map
          (fun m => m.id))) ∧
    (∀ (env : DateEnv) (c : Collab) (latest : List HealthLog)
        (fields : List (String × JVal)) (s : String),
      asStr (lookupLast fields "id") = some s →
      resolveHealthLogId env c latest (some (.jObj fields)) = .ok (some s)) ∧
    (∀ (env : DateEnv) (c : Collab) (latest : List HealthLog)
        (fields : List (String × JVal)),
      latest ≠ [] →
      asStr (lookupLast fields "id") = none →
      (∀ g ∈ latest, (env.parse g.start_date).isSome) →
      (∀ iso,
        truthyStr (parseDateTime env
          (asStr (lookupLast fields "start_date"))) = some iso →
        (env.parse iso).isSome) →
      resolveHealthLogId env c latest (some (.jObj fields)) =
        .ok ((latest.find? (logMatchesSpec env
            (nameKeyOf (lookupLast fields "symptom_type"))
            (truthyStr (parseDateTime env
              (asStr (lookupLast fields "start_date")))))).map
          (fun l => l.id))) := by
  refine ⟨?_, ?_, ?_, ?_, ?_, ?_⟩
  · intro env c latest fields s hid
    unfold resolveAppointmentId
    simp only [dget_obj, exc_bind_ok, hid]
    rfl
  · intro env c latest fields hne hid hdates hiso
    unfold resolveAppointmentId
    simp only [dget_obj, exc_bind_ok, hid]
    have hlen : ¬ latest.length = 0 := fun h => hne (List.length_eq_zero.mp h)
    simp only [ne_eq, hlen, not_false_eq_true, if_true, exc_pure_eq, exc_bind_ok,
      dget_obj]
    rw [findApptMatch_ok env _ _ hiso latest hdates]
    simp only [exc_bind_ok, exc_pure_eq]
  · intro env c latest fields s hid
    unfold resolveMedicationId
    simp only [dget_obj, exc_bind_ok, hid]
    rfl
  · intro env c latest fields hne hid hdates hiso
    unfold resolveMedicationId
    simp only [dget_obj, exc_bind_ok, hid]
    have hlen : ¬ latest.length = 0 := fun h => hne (List.length_eq_zero.mp h)
    simp only [ne_eq, hlen, not_false_eq_true, if_true, exc_pure_eq, exc_bind_ok,
      dget_obj]
    rw [findMedMatch_ok env _ _ hiso latest hdates]
    simp only [exc_bind_ok, exc_pure_eq]
  · intro env c latest fields s hid
    unfold resolveHealthLogId
    simp only [dget_obj, exc_bind_ok, hid]
    rfl
  · intro env c latest fields hne hid hdates hiso
    unfold resolveHealthLogId
    simp only [dget_obj, exc_bind_ok, hid]
    have hlen : ¬ latest.length = 0 := fun h => hne (List.length_eq_zero.mp h)
    simp only [ne_eq, hlen, not_false_eq_true, if_true, exc_pure_eq, exc_bind_ok,
      dget_obj]
    rw [findLogMatch_ok env _ _ hiso latest hdates]
    simp only [exc_bind_ok, exc_pure_eq]

def apptsW : List AppointmentReminder :=
  [⟨"a1", "user-1", "Eye checkup", "2025-01-02T09:30:00.000Z"⟩,
   ⟨"a2", "user-1", "Dentist", "2025-01-03T10:00:00.000Z"⟩]

def fieldsW : List (String × JVal) := [("appointment_name", .jStr "DENTIST")]

/-- Witness: the C6 search case on a two-appointment snapshot with a
case-insensitive name match on the second record. -/
theorem resolver_first_match_witness :
    resolveAppointmentId jsEnv2025 okCollab apptsW (some (.jObj fieldsW)) =
      .ok ((apptsW.find? (apptMatchesSpec jsEnv2025
          (nameKeyOf (lookupLast fieldsW "appointment_name"))
          (truthyStr (parseDateTime jsEnv2025
            (asStr (lookupLast fieldsW "date")))))).map (fun a => a.id)) ∧
    ((apptsW.find? (apptMatchesSpec jsEnv2025
        (nameKeyOf (lookupLast fieldsW "appointment_name"))
        (truthyStr (parseDateTime jsEnv2025
          (asStr (lookupLast fieldsW "date")))))).map (fun a => a.id)) =
      some "a2" :=
  ⟨resolver_first_match.2.1 jsEnv2025 okCollab apptsW fieldsW
      (by simp [apptsW]) rfl (by decide)
      (fun iso h =>
        Option.noConfusion (show (none : Option String) = some iso from h)),
    by decide⟩

end SymptomSync
